import Mathlib

/-!
Verification of the meduza redis driver's query-and-indexing engine.

The Go source is embedded shallowly: Go byte strings become `List Nat`
(one natural per byte), Go `int64`/`uint64` become `Int`/`Nat` with explicit
two's-complement reductions modulo `2 ^ 64` where the source converts,
maps become association lists, and fallible functions return `Except`.
Each definition is translated from the corresponding function of the
source repository (file and function named in its doc comment).
-/

namespace Meduza

/-- Byte strings: Go `string` / `[]byte` values, one natural number per byte. -/
abbrev Bytes := List Nat

/-- UTF-8 bytes of a single code point (the standard UTF-8 layout; property
names and literals in this development are ASCII, where this is the identity
on the code point). -/
def charBytes (n : Nat) : List Nat :=
  if n < 0x80 then [n]
  else if n < 0x800 then [0xC0 + n / 64, 0x80 + n % 64]
  else if n < 0x10000 then [0xE0 + n / 4096, 0x80 + n / 64 % 64, 0x80 + n % 64]
  else [0xF0 + n / 262144, 0x80 + n / 4096 % 64, 0x80 + n / 64 % 64, 0x80 + n % 64]

/-- The UTF-8 bytes of a Lean `String`, used to move between `String`
property names and the byte strings Go hashes and concatenates. -/
def strBytes (s : String) : Bytes :=
  (s.data.map (fun c => charBytes c.toNat)).flatten

/-- Lexicographic byte-string comparison, as Redis compares binary strings
(memcmp order: a strict prefix sorts before its extensions). -/
def lexLt : Bytes → Bytes → Bool
  | [], [] => false
  | [], _ :: _ => true
  | _ :: _, [] => false
  | a :: as, b :: bs => if a < b then true else if b < a then false else lexLt as bs

/-- Big-endian fixed-width digit expansion of a natural number in a base. -/
def beDigits (base : Nat) : Nat → Nat → List Nat
  | 0, _ => []
  | w + 1, n => n / base ^ w :: beDigits base w (n % base ^ w)

/-- Embeds `query.Ordering` (src/query/get.go): a sort column and direction;
an empty `by_` means no ordering clause (`Ordering.IsNil`). -/
structure QOrdering where
  by_ : String
  ascending : Bool
  deriving DecidableEq

/-- Embeds `Ordering.IsNil` (src/query/get.go). -/
def QOrdering.isNil (o : QOrdering) : Bool := o.by_ = ""

/-- The matching loop of `CompoundIndex.Matches` (src/driver/redis/compound.go
lines 67-83): walks the index properties counting matches; a property absent
from the filter keys fails the match unless it is the order-by column; the
loop breaks once `expected` matches are counted. Returns the final count, or
`none` where the Go code returns `false, 0`. -/
def matchLoop (fkeys : List String) (order : QOrdering) (expected : Nat) :
    List String → Nat → Option Nat
  | [], m => some m
  | p :: ps, m =>
    if fkeys.contains p then
      if m + 1 = expected then some (m + 1) else matchLoop fkeys order expected ps (m + 1)
    else if order.isNil = false ∧ p = order.by_ then
      matchLoop fkeys order expected ps (m + 1)
    else none

/-- Embeds `CompoundIndex.Matches` (src/driver/redis/compound.go lines 46-87).
`props` are the index's columns; `fkeys` the query's filter keys. With an
ordering clause, the order column must be the last index property
(`props.getLastD ""` embeds `i.properties[len(i.properties)-1]`), and an order
column not among the filters raises the expected match count by one. -/
def compoundMatches (props fkeys : List String) (order : QOrdering) : Bool × ℚ :=
  if order.isNil = false ∧ order.by_ ≠ props.getLastD "" then (false, 0)
  else
    let expected := fkeys.length +
      (if order.isNil = false ∧ fkeys.contains order.by_ = false then 1 else 0)
    if props.length < expected then (false, 0)
    else
      match matchLoop fkeys order expected props 0 with
      | none => (false, 0)
      | some m => (true, (m : ℚ) / (props.length : ℚ))


/-- Embeds `changeType` (src/driver/redis/changeset.go lines 18-28). -/
inductive ChangeType where
  | nop
  | update
  | insert
  | delete
  | reindex
  deriving DecidableEq

/-- One step of FNV-1a/64 (`hash/fnv`, as used by `propertyList.hash` in
src/driver/redis/changeset.go): xor the byte in, multiply by the FNV prime,
modulo `2 ^ 64`. -/
def fnv1a64Step (h b : Nat) : Nat := ((h ^^^ b) * 1099511628211) % 2 ^ 64

/-- Embeds `propertyList.hash` (src/driver/redis/changeset.go lines 180-189):
FNV-1a/64 over the concatenated UTF-8 bytes of the property names in order. -/
def propertyListHash (l : List String) : Nat :=
  ((l.map strBytes).flatten).foldl fnv1a64Step 14695981039346656037

/-- Embeds the fields of `entityChange` (src/driver/redis/changeset.go lines
30-36) read by `indexableProperties`: the sorted changed-property name list,
the property name of each entry of `changes` (in order), and the change kind. -/
structure EntityChange where
  changedProperties : List String
  changeProps : List String
  changeType : ChangeType

/-- A table as `indexableProperties` sees it: the primary index's property
list plus each secondary index's property list (`index.Properties`). -/
structure ModelTable where
  primaryProps : List String
  indexes : List (List String)

/-- Embeds `CompoundIndex.MatchesProperties` (src/driver/redis/compound.go
lines 90-98): every given property must be among the index's columns. -/
def matchesProperties (idx : List String) (ps : List String) : Bool :=
  ps.all (fun p => idx.contains p)

/-- The `!props.contains(prop)`-guarded appends of `indexableProperties`:
append each property of an index that is not yet in the accumulated list. -/
def addMissing (props : List String) (idxProps : List String) : List String :=
  idxProps.foldl (fun acc p => if acc.contains p then acc else acc ++ [p]) props

/-- The uncached body of `changeSet.indexableProperties`
(src/driver/redis/changeset.go lines 239-272): start from the primary's
properties; for each change, for each secondary index, add all the index's
properties for a DELETE change, and otherwise add them only when the index
matches the changed property. -/
def computeIndexable (t : ModelTable) (rc : EntityChange) : List String :=
  rc.changeProps.foldl
    (fun acc chProp =>
      t.indexes.foldl
        (fun acc2 idx =>
          if rc.changeType = ChangeType.delete then addMissing acc2 idx
          else if matchesProperties idx [chProp] then addMissing acc2 idx
          else acc2)
        acc)
    t.primaryProps

/-- Embeds `indexableCache` (src/driver/redis/changeset.go lines 208-227): a
process-wide map from a 64-bit hash to a property list, as an association
list (later writes shadow earlier ones, as map assignment overwrites). -/
abbrev PropCache := List (Nat × List String)

/-- Embeds `indexableCache.get`. -/
def cacheGet (c : PropCache) (h : Nat) : Option (List String) :=
  (c.find? (fun e => e.1 = h)).map (fun e => e.2)

/-- Embeds `indexableCache.set`. -/
def cacheSet (c : PropCache) (h : Nat) (p : List String) : PropCache :=
  (h, p) :: c

/-- Embeds `changeSet.indexableProperties` (src/driver/redis/changeset.go
lines 231-277), with the process-wide `propCache` passed and returned as
explicit state: the result is memoized keyed only by the FNV-1a/64 hash of
the sorted changed-property list. -/
def indexableProperties (cache : PropCache) (t : ModelTable) (rc : EntityChange) :
    List String × PropCache :=
  let h := propertyListHash rc.changedProperties
  match cacheGet cache h with
  | some p => (p, cache)
  | none =>
    let props := computeIndexable t rc
    (props, cacheSet cache h props)

/-- Association-list lookup for a Go `map[string]V`: `none` means the key is
absent, `some v` that the key maps to `v`. -/
def lookupProp {V : Type} (m : List (String × V)) (p : String) : Option V :=
  (m.find? (fun e => e.1 = p)).map (fun e => e.2)

/-- The loop of `CompoundIndex.entry` (src/driver/redis/compound.go lines
116-145): walk the index properties; a property missing from the value map
aborts with `""` (`none` here); a `|` separator is appended before every
property but the first; a non-nil value is appended and marks the entry
valid. Values reach this code after `prepareValue`, so they are byte strings
(`fmt.Sprintf("%v", v)` of a Go string is the string itself); a nil value is
`none`. -/
def entryLoop (m : List (String × Option Bytes)) :
    List String → Nat → Bool → Bytes → Option (Bool × Bytes)
  | [], _, valid, acc => some (valid, acc)
  | p :: ps, n, valid, acc =>
    match lookupProp m p with
    | none => none
    | some v =>
      let acc2 := if n > 0 then acc ++ [124] else acc
      match v with
      | none => entryLoop m ps (n + 1) valid acc2
      | some sv => entryLoop m ps (n + 1) true (acc2 ++ sv)

/-- Embeds `CompoundIndex.entry` (src/driver/redis/compound.go lines 116-145):
the stored index entry `v1|v2|...|vK|::<id>`, or `""` (the empty byte string)
when a property is missing or every value is nil. `124 = '|'`, `58 = ':'`. -/
def compoundEntry (props : List String) (id : Bytes) (m : List (String × Option Bytes)) :
    Bytes :=
  match entryLoop m props 0 false [] with
  | none => []
  | some (valid, acc) => if valid then acc ++ [124, 58, 58] ++ id else []

/-- Embeds `entityDiff` (src/driver/redis/changeset.go lines 294-298) as the
compound-index pipeline consumes it: per indexable property, the prepared
(old value, new value) pair; values are post-`prepareValue`, so byte strings
or nil. -/
structure EntityDiff where
  id : Bytes
  diffs : List (String × (Option Bytes × Option Bytes))
  changeType : ChangeType

/-- Embeds `entityDiff.vals` (src/driver/redis/changeset.go lines 300-312). -/
def diffVals (d : EntityDiff) (useNew : Bool) : List (String × Option Bytes) :=
  d.diffs.map (fun e => (e.1, if useNew then e.2.2 else e.2.1))

/-- Embeds `CompoundIndex.diffEntry` (src/driver/redis/compound.go lines
148-151). -/
def diffEntry (props : List String) (d : EntityDiff) (useNew : Bool) : Bytes :=
  compoundEntry props d.id (diffVals d useNew)

/-- The per-diff body of the `CompoundIndex.Pipeline` goroutine loop
(src/driver/redis/compound.go lines 269-295), accumulating the entries added
to the ZADD command (`acc.1`) and the ZREM command (`acc.2`). -/
def pipelineStepAcc (props : List String) (acc : List Bytes × List Bytes)
    (d : EntityDiff) : List Bytes × List Bytes :=
  let delEntry := diffEntry props d false
  if d.changeType ≠ ChangeType.delete then
    let addEntry := diffEntry props d true
    if addEntry ≠ delEntry then
      ((if addEntry.length > 0 then acc.1 ++ [addEntry] else acc.1),
       (if delEntry.length > 0 then acc.2 ++ [delEntry] else acc.2))
    else acc
  else if delEntry ≠ [] then (acc.1, acc.2 ++ [delEntry])
  else acc

/-- Embeds the `CompoundIndex.Pipeline` diff loop over a finished stream of
entity diffs (src/driver/redis/compound.go lines 259-321): the pair of (ADD
entries, REMOVE entries) enqueued for the index when the channel closes. -/
def pipelineRun (props : List String) (diffs : List EntityDiff) :
    List Bytes × List Bytes :=
  diffs.foldl (pipelineStepAcc props) ([], [])

/-- The bit transform of `prepareValue`'s Float branch (src/unnamed/part_009
lines 269-276): with the IEEE 754 double reinterpreted as a 64-bit unsigned
pattern `x < 2^64`, Go's `x & 0x8000000000000000 != 0` is `2^63 ≤ x`, its
`^x & 0xFFFFFFFFFFFFFFFF` is `2^64 - 1 - x`, and its `x | 0x8000000000000000`
on a pattern with the sign bit clear is `x + 2^63`. -/
def floatSortKey (x : Nat) : Nat :=
  if 2 ^ 63 ≤ x then 2 ^ 64 - 1 - x else x + 2 ^ 63

/-- The magnitude denoted by an IEEE 754 double pattern with the sign bit
stripped (`m < 2^63`; biased exponent `m / 2^52`, fraction `m % 2^52`),
scaled by `2 ^ 1075` so it is a natural number: subnormals are `f · 2^1`,
normals `(2^52 + f) · 2^e`, and the infinity pattern (exponent 2047,
fraction 0) lands above every finite magnitude. -/
def magValZ (m : Nat) : Nat :=
  ((if m / 2 ^ 52 = 0 then 0 else 2 ^ 52) + m % 2 ^ 52) * 2 ^ (max (m / 2 ^ 52) 1)

/-- The numeric value denoted by a 64-bit IEEE 754 double pattern, scaled by
`2 ^ 1075` (sign in bit 63): meaningful for non-NaN patterns, and two such
patterns compare under `floatVal` exactly as the doubles they denote compare
numerically (`-0.0` and `+0.0` both map to `0`). -/
def floatVal (x : Nat) : Int :=
  (if 2 ^ 63 ≤ x then -1 else 1) * (magValZ (x % 2 ^ 63) : Int)

/-- A NaN bit pattern: maximal exponent with a non-zero fraction. -/
def floatIsNaN (x : Nat) : Prop :=
  (x % 2 ^ 63) / 2 ^ 52 = 2047 ∧ (x % 2 ^ 63) % 2 ^ 52 ≠ 0

instance (x : Nat) : Decidable (floatIsNaN x) := by
  unfold floatIsNaN; infer_instance

/-- Lowercase hex digit byte, as `encoding/hex` writes (`'0'..'9'`,
`'a'..'f'`). -/
def hexDigitChar (d : Nat) : Nat := if d < 10 then 48 + d else 87 + d

/-- One byte as its two lowercase hex digit bytes (`encoding/hex`). -/
def hexByte (b : Nat) : Bytes := [hexDigitChar (b / 16), hexDigitChar (b % 16)]

/-- Embeds `hex.EncodeToString` over a byte string. -/
def hexEncode (bs : Bytes) : Bytes := (bs.map hexByte).flatten

/-- Embeds `binary.BigEndian.PutUint64`: the 8 big-endian bytes of a 64-bit
value. -/
def beBytes8 (n : Nat) : Bytes := beDigits 256 8 n

/-- Embeds the `schema.Int`/`schema.Uint` branch of `prepareValue`
(src/unnamed/part_009 lines 261-268): 8-byte big-endian layout of the 64-bit
pattern (`uint64(tv)`), hex-encoded. -/
def prepareUintBytes (v : Nat) : Bytes := hexEncode (beBytes8 v)

/-- Embeds the `schema.Float` branch of `prepareValue` (src/unnamed/part_009
lines 269-276) end to end: the order-preserving bit transform, then the
8-byte big-endian hex encoding via the `schema.Uint` branch. `x` is the
IEEE 754 bit pattern of the double. -/
def prepareFloatBytes (x : Nat) : Bytes := prepareUintBytes (floatSortKey x)

/-- Embeds `whitespaceDedupe.isWhite` (src/schema/normalize.go lines 45-51). -/
def isWhiteByte (b : Nat) : Bool :=
  b == 9 || b == 10 || b == 11 || b == 12 || b == 13 || b == 32

/-- The tail of `whitespaceDedupe.Transform` (src/schema/normalize.go lines
54-72): copy each byte unless it is a whitespace following a whitespace. -/
def dedupeWhiteGo (prev : Nat) : List Nat → List Nat
  | [] => []
  | b :: rest =>
    if isWhiteByte b && isWhiteByte prev then dedupeWhiteGo b rest
    else b :: dedupeWhiteGo b rest

/-- Embeds `whitespaceDedupe.Transform` (src/schema/normalize.go lines 54-72):
the byte at position 0 is always copied (the dedupe condition requires
`i > 0`). -/
def dedupeWhite : List Nat → List Nat
  | [] => []
  | b :: rest => b :: dedupeWhiteGo b rest

/-- ASCII lowercasing of one byte (`A`-`Z` to `a`-`z`). -/
def asciiLowerByte (b : Nat) : Nat := if 65 ≤ b ∧ b ≤ 90 then b + 32 else b

/-- Models the text normalizer the redis driver pools —
`NewNormalizer(language.Und, true, false)` (src/unnamed/part_002 region of
the driver, `normalizerPool`) over the chain built in src/schema/normalize.go
lines 76-98: NFD, strip combining marks, locale lowercasing, whitespace
deduplication. On ASCII byte strings — the only inputs the theorems use —
NFD and combining-mark removal are identities and `cases.Lower` is ASCII
lowercasing; the whitespace deduplication is ported from
`whitespaceDedupe.Transform`. Empty input returns empty. -/
def normalizeBytes (s : Bytes) : Bytes := dedupeWhite (s.map asciiLowerByte)

/-- The values `prepareValue` (src/unnamed/part_009 lines 247-283) dispatches
on: text (`schema.Text` / `string` / `[]byte` collapse to one byte-string
constructor), `schema.Int` (int64), `schema.Uint` (uint64), `schema.Float`
(carried by its IEEE 754 bit pattern), or any other supported value, carried
as its codec encoding (the default branch defers to `encoder.Encode`). -/
inductive PVal where
  | text (s : Bytes)
  | int (v : Int)
  | uint (v : Nat)
  | float (bits : Nat)
  | other (enc : Bytes)
  deriving DecidableEq

/-- Go's `uint64(tv)` for an `int64` value: the two's-complement 64-bit
pattern. -/
def int64Pattern (v : Int) : Nat := (v % 2 ^ 64).toNat

/-- Embeds `prepareValue` (src/unnamed/part_009 lines 247-283): nil stays
nil; text is normalized; `Int`/`Uint` become 8-byte big-endian hex of the
64-bit pattern; `Float` goes through the order-preserving bit transform and
then the `Uint` branch; other values keep their codec encoding. -/
def prepareValue : Option PVal → Option Bytes
  | none => none
  | some (PVal.text s) => some (normalizeBytes s)
  | some (PVal.int v) => some (prepareUintBytes (int64Pattern v))
  | some (PVal.uint v) => some (prepareUintBytes v)
  | some (PVal.float bits) => some (prepareUintBytes (floatSortKey bits))
  | some (PVal.other enc) => some enc

/-- Embeds `formatValue` (src/unnamed/part_009 lines 286-298): a prepared
byte-string value gets a `|` appended (the `[]byte`/`string`/`schema.Text`
cases); a nil prepared value falls to the default `fmt.Sprintf("%v|", val)`,
which renders Go nil as `<nil>`. -/
def formatValue : Option Bytes → Bytes
  | some v => v ++ [124]
  | none => strBytes "<nil>" ++ [124]

/-- An entity as the primary index sees it (src/unnamed/part_001 `Entity`):
an id, a property bag (`none` values are Go nil), and a TTL in nanoseconds
(zero meaning none). -/
structure PEntity where
  id : Bytes
  props : List (String × Option PVal)
  ttl : Nat

/-- FNV-1a/64 of a byte string (`hash/fnv`, as `compoundPrimaryIndex.processId`
uses it). -/
def fnv1a64Bytes (bs : Bytes) : Nat := bs.foldl fnv1a64Step 14695981039346656037

/-- Go's `fmt.Sprintf("%x", n)` for an unsigned 64-bit value: minimal-width
lowercase hex, `"0"` for zero. -/
def natToHexMinimal (n : Nat) : Bytes :=
  if n = 0 then [48] else (Nat.digits 16 n).reverse.map hexDigitChar

/-- Embeds `compoundPrimaryIndex.processId` (src/driver/redis/primary.go
lines 397-408): an empty id stays empty; a hashed primary replaces the
concatenation by the hex FNV-1a/64 of its bytes. -/
def processId (hashed : Bool) (id : Bytes) : Bytes :=
  if id = [] then []
  else if hashed then natToHexMinimal (fnv1a64Bytes id)
  else id

/-- The column loop of `compoundPrimaryIndex.GenerateId`
(src/driver/redis/primary.go lines 533-554): a column missing from the
property bag, or nil, is an error; otherwise its prepared, formatted value is
appended to the key. -/
def generateIdLoop (ent : PEntity) : List String → Bytes → Except String Bytes
  | [], key => Except.ok key
  | p :: ps, key =>
    match lookupProp ent.props p with
    | none => Except.error ("Cannot index entity with missing/nil value for " ++ p)
    | some none => Except.error ("Cannot index entity with missing/nil value for " ++ p)
    | some (some v) => generateIdLoop ent ps (key ++ formatValue (prepareValue (some v)))

/-- Embeds `compoundPrimaryIndex.GenerateId` (src/driver/redis/primary.go
lines 533-554). -/
def generateId (cols : List String) (hashed : Bool) (ent : PEntity) : Except String Bytes :=
  (generateIdLoop ent cols []).map (processId hashed)

/-- The two change ops `table.Put` emits for an entity (src/driver/redis/table.go
lines 112-121): a `query.Set` per property and a trailing `query.Expire` when
the entity carries a TTL. -/
inductive PutChange where
  | set (property : String) (value : Option PVal)
  | expire (ttl : Nat)
  deriving DecidableEq

/-- The entity change `table.Put` adds to its change set per entity
(src/driver/redis/table.go lines 98-125). -/
structure PutEntityChange where
  objectId : Bytes
  changeType : ChangeType
  changes : List PutChange

/-- The per-entity loop of `table.Put` (src/driver/redis/table.go lines
98-125): generate the id (an error aborts Put before anything is executed),
mark the change INSERT when the generated id differs from the entity's id and
UPDATE otherwise, and collect the change set. Returns the ids and the built
change set. -/
def tablePutLoop (cols : List String) (hashed : Bool) :
    List PEntity → List Bytes → List PutEntityChange →
      Except String (List Bytes × List PutEntityChange)
  | [], ids, cs => Except.ok (ids, cs)
  | ent :: rest, ids, cs =>
    match generateId cols hashed ent with
    | Except.error e => Except.error e
    | Except.ok id =>
      let newId := if id ≠ ent.id then id else ent.id
      let ct := if id ≠ ent.id then ChangeType.insert else ChangeType.update
      tablePutLoop cols hashed rest (ids ++ [newId])
        (cs ++ [{ objectId := newId, changeType := ct,
                  changes := ent.props.map (fun e => PutChange.set e.1 e.2) ++
                    (if ent.ttl > 0 then [PutChange.expire ent.ttl] else []) }])

/-- Embeds `table.Put` for a table with a compound primary index
(src/driver/redis/table.go lines 93-136), with the backing store abstracted
to the log of executed change sets: `cs.Execute()` appends the built change
set to the log; the `GenerateId` error return happens inside the loop before
`Execute`, so on error the log — and hence the store — is untouched. -/
def tablePut (cols : List String) (hashed : Bool) (entities : List PEntity)
    (store : List (List PutEntityChange)) :
    Except String (List Bytes) × List (List PutEntityChange) :=
  match tablePutLoop cols hashed entities [] [] with
  | Except.error e => (Except.error e, store)
  | Except.ok (ids, cs) => (Except.ok ids, store ++ [cs])

/-- Filter operators (src/query/filter.go lines 11-18). -/
inductive FOp where
  | eq
  | between
  | inOp
  | gt
  | lt
  | all
  deriving DecidableEq

/-- Embeds `query.Filter` (src/query/filter.go lines 20-24) with values
already converted to internal types. -/
structure QFilter where
  property : String
  operator : FOp
  values : List (Option PVal)

/-- Go's `fmt.Sprintf("%v", pv)` on a prepared value: a byte string prints
as itself, nil prints as `<nil>`. -/
def sprintfV : Option Bytes → Bytes
  | some b => b
  | none => strBytes "<nil>"

/-- The column walk of `CompoundIndex.rangeKeys`
(src/driver/redis/compound.go lines 154-231): stop at the first index column
missing from the filters; an Eq filter appends its prepared value plus `|`
to both bounds (rejected after a range); a Between filter (one allowed, and
with an ordering clause only on the order column) appends its low and high
prepared values to the respective bounds; any other operator is an error.
`f.Values[0]`/`f.Values[1]` are embedded as `values.getD i none`. -/
def rangeKeysLoop (filters : List (String × QFilter)) (order : QOrdering) :
    List String → Bytes → Bytes → Nat → Nat → Except String (Bytes × Bytes × Nat)
  | [], sv, ev, _, nProps => Except.ok (sv, ev, nProps)
  | p :: ps, sv, ev, numRanges, nProps =>
    match lookupProp filters p with
    | none => Except.ok (sv, ev, nProps)
    | some f =>
      match f.operator with
      | FOp.eq =>
        if numRanges > 0 then
          Except.error "Ranges must come after equality filters in the index's column order"
        else
          let b := sprintfV (prepareValue (f.values.getD 0 none)) ++ [124]
          rangeKeysLoop filters order ps (sv ++ b) (ev ++ b) numRanges (nProps + 1)
      | FOp.between =>
        if order.isNil = false ∧ order.by_ ≠ p then
          Except.error "Range queries can only be ordered by the range property"
        else if numRanges > 0 then
          Except.error "Only a single range per query allowed"
        else
          let lo := sprintfV (prepareValue (f.values.getD 0 none))
          let hi := sprintfV (prepareValue (f.values.getD 1 none))
          rangeKeysLoop filters order ps (sv ++ lo) (ev ++ hi) (numRanges + 1) (nProps + 1)
      | _ => Except.error "Invalid filter type for index"

/-- Embeds `CompoundIndex.rangeKeys` (src/driver/redis/compound.go lines
154-231): the low bound starts with `[` (inclusive, byte 91), the high bound
with `(` (exclusive, byte 40); with at least one filtered column the high
bound gets a trailing `0xff` byte, otherwise both bounds are empty. -/
def rangeKeys (props : List String) (filters : List (String × QFilter))
    (order : QOrdering) : Except String (Bytes × Bytes) :=
  match rangeKeysLoop filters order props [91] [40] 0 0 with
  | Except.error e => Except.error e
  | Except.ok (sv, ev, nProps) =>
    if nProps > 0 then Except.ok (sv, ev ++ [255]) else Except.ok ([], [])

/-- Whether a sorted-set element satisfies a ZRANGEBYLEX min bound. The
driver only produces `[`-inclusive and `(`-exclusive bounds; anything else
is a Redis error, modeled as matching nothing. -/
def minBoundOk (bound x : Bytes) : Bool :=
  match bound with
  | 91 :: s => !lexLt x s
  | 40 :: s => lexLt s x
  | _ => false

/-- Whether a sorted-set element satisfies a ZRANGEBYLEX max bound. -/
def maxBoundOk (bound x : Bytes) : Bool :=
  match bound with
  | 91 :: s => !lexLt s x
  | 40 :: s => lexLt x s
  | _ => false

/-- The elements of a lexicographic sorted set (modeled as its ascending,
duplicate-free member list) within a min/max bound pair. -/
def zrangeElems (store : List Bytes) (mn mx : Bytes) : List Bytes :=
  store.filter (fun x => minBoundOk mn x && maxBoundOk mx x)

/-- Redis `LIMIT offset count` applied to a result list: skip `offset`, then
return `count` elements (a negative count means all remaining). -/
def applyLimit (offset count : Int) (l : List Bytes) : List Bytes :=
  if count < 0 then l.drop offset.toNat
  else (l.drop offset.toNat).take count.toNat

/-- Redis `ZRANGEBYLEX key min max [LIMIT offset count]` on the model. -/
def zrangebylex (store : List Bytes) (mn mx : Bytes) (limit : Option (Int × Int)) :
    List Bytes :=
  match limit with
  | none => zrangeElems store mn mx
  | some (o, c) => applyLimit o c (zrangeElems store mn mx)

/-- Redis `ZREVRANGEBYLEX key max min [LIMIT offset count]` on the model:
the members of the range in reverse order, with the limit applied after
reversing. -/
def zrevrangebylex (store : List Bytes) (mx mn : Bytes) (limit : Option (Int × Int)) :
    List Bytes :=
  match limit with
  | none => (zrangeElems store mn mx).reverse
  | some (o, c) => applyLimit o c (zrangeElems store mn mx).reverse

/-- Redis `ZLEXCOUNT key min max` on the model. -/
def zlexcount (store : List Bytes) (mn mx : Bytes) : Nat :=
  (zrangeElems store mn mx).length

/-- Embeds `strings.Split(s, "::")`: split on each non-overlapping
occurrence of two colon bytes (58). -/
def splitColons : List Nat → List (List Nat)
  | [] => [[]]
  | [b] => [[b]]
  | b :: b2 :: rest =>
    if b = 58 ∧ b2 = 58 then [] :: splitColons rest
    else
      match splitColons (b2 :: rest) with
      | s :: ss => (b :: s) :: ss
      | [] => [[b]]

/-- Embeds `extractId` (src/driver/redis/compound.go lines 375-381): the part
after a single `::` separator, or `""` when the split does not give exactly
two parts. -/
def extractId (s : Bytes) : Bytes :=
  match splitColons s with
  | [_, b] => b
  | _ => []

/-- Embeds `CompoundIndex.Find` (src/driver/redis/compound.go lines 325-373)
against a sorted-set model of the index key: build the range from the
filters; ascending (or unordered) queries use ZRANGEBYLEX with the bounds in
order, descending queries use ZREVRANGEBYLEX with the bounds swapped; a
positive limit becomes `LIMIT offset offset+limit`; the total is ZLEXCOUNT
over the first three arguments of the range command — which for descending
queries passes the bounds in swapped positions. -/
def compoundFind (props : List String) (store : List Bytes)
    (filters : List (String × QFilter)) (offset limit : Int) (order : QOrdering) :
    Except String (List Bytes × Nat) :=
  match rangeKeys props filters order with
  | Except.error e => Except.error e
  | Except.ok (rs, re) =>
    let desc := order.isNil = false ∧ order.ascending = false
    let lim := if limit > 0 then some (offset, offset + limit) else none
    let ids := if desc then zrevrangebylex store re rs lim else zrangebylex store rs re lim
    let card := if desc then zlexcount store re rs else zlexcount store rs re
    Except.ok (ids.map extractId, card)

/-- The reply walk of `basePrimaryIndex.find` (src/driver/redis/primary.go
lines 77-89): the first `len(keys)` replies are EXISTS results sorting each
id into the returned list or the repair list; the reply after them is the
ZCARD of the primary key, stored as the total. -/
def primaryFindLoop : List Bytes → List Nat → List Bytes × List Bytes × Nat
  | [], t :: _ => ([], [], t)
  | [], [] => ([], [], 0)
  | id :: ids, r :: rs =>
    let rest := primaryFindLoop ids rs
    if r = 1 then (id :: rest.1, rest.2.1, rest.2.2)
    else (rest.1, id :: rest.2.1, rest.2.2)
  | _ :: _, [] => ([], [], 0)

/-- Embeds `basePrimaryIndex.find` (src/driver/redis/primary.go lines 39-97)
against a model store: `rows` is the set of ids whose row key exists, and
`pstore` the member list of the primary index sorted set. The batch replies
are one EXISTS per id followed by `ZCARD` of the primary key; ids whose row
is missing are read-repaired out of the primary sorted set. Returns the
found ids, the total, and the primary sorted set after repair. -/
def primaryFind (rows pstore ids : List Bytes) :
    List Bytes × Nat × List Bytes :=
  let replies := ids.map (fun id => if rows.contains id then 1 else 0) ++ [pstore.length]
  let res := primaryFindLoop ids replies
  let pstore2 :=
    if res.2.1.length > 0 then pstore.filter (fun e => !(res.2.1.contains e)) else pstore
  (res.1, res.2.2, pstore2)

/-- The supported typed values of the value codec (src/driver/redis/convert.go;
types from src/schema/types.go lines 37-49). `schema.Float` is modeled by the
exact rational value the double denotes (the decimal formatting and parsing
below are exact on rationals); `schema.Timestamp` is modeled at second
precision by its Unix seconds, as the storage encoding keeps only seconds; a
`schema.Set` is modeled by its element list in iteration order (the claim
compares sets element-wise). -/
inductive SVal where
  | int (v : Int)
  | uint (v : Nat)
  | float (q : ℚ)
  | bool (b : Bool)
  | text (s : Bytes)
  | binary (s : Bytes)
  | timestamp (sec : Int)
  | set (elems : List SVal)
  | list (elems : List SVal)
  | map (entries : List (Bytes × SVal))

/-- Little-endian base-`base` digits with explicit fuel (`fuel ≥ n` gives the
standard digit expansion); fueled so it reduces definitionally. -/
def natDigitsLE (base : Nat) : Nat → Nat → List Nat
  | 0, _ => []
  | fuel + 1, n => if n = 0 then [] else n % base :: natDigitsLE base fuel (n / base)

/-- Go's `%d` for an unsigned value: decimal digit bytes, `"0"` for zero. -/
def natDecDigits (n : Nat) : Bytes :=
  if n = 0 then [48] else ((natDigitsLE 10 n n).map (fun d => d + 48)).reverse

/-- Go's `%d` for an `int64`: an optional `-` (45) then the decimal digits of
the magnitude. -/
def intDec (v : Int) : Bytes :=
  (if v < 0 then [45] else []) ++ natDecDigits v.natAbs

/-- Round half to even of a rational, as Go's correctly-rounding decimal
formatting resolves ties. -/
def roundHalfEven (q : ℚ) : Int :=
  if q - ⌊q⌋ < 1 / 2 then ⌊q⌋
  else if q - ⌊q⌋ > 1 / 2 then ⌊q⌋ + 1
  else if ⌊q⌋ % 2 = 0 then ⌊q⌋ else ⌊q⌋ + 1

/-- Go's `fmt.Sprintf("%f", v)` (precision 6) on the exact value of the
double: sign, integer part, `.` (46), and exactly six fraction digits, the
value correctly rounded to six decimals. -/
def fmtF6 (q : ℚ) : Bytes :=
  let n := (roundHalfEven (|q| * 1000000)).toNat
  (if q < 0 then [45] else []) ++ natDecDigits (n / 1000000) ++
    [46] ++ (beDigits 10 6 (n % 1000000)).map (fun d => d + 48)

/-- Models the external snappy codec (github.com/golang/snappy) by its
round-trip contract — `snappyDecode (snappyEncode s) = ok s` — which is the
only property the repository relies on; the compression itself is not
repository code. -/
def snappyEncode (s : Bytes) : Bytes := s

/-- Inverse of `snappyEncode`; see its doc comment. -/
def snappyDecode (s : Bytes) : Except String Bytes := Except.ok s

/-- Models the legacy LZW text codec (`compress/lzw`, tag `z`) by its
round-trip contract, like `snappyEncode`. -/
def lzwDecode (s : Bytes) : Except String Bytes := Except.ok s

/-- Whole-string decimal-digit parse: `some n` when the string is non-empty
and all decimal digits. -/
def parseDecDigits (s : Bytes) : Option Nat :=
  if s = [] then none
  else if s.all (fun b => 48 ≤ b && b ≤ 57) then
    some (Nat.ofDigits 10 ((s.map (fun b => b - 48)).reverse))
  else none

/-- Models `strconv.ParseInt(s, 10, 64)`: optional sign, decimal digits,
64-bit range check. -/
def parseIntGo (s : Bytes) : Option Int :=
  match s with
  | 45 :: rest =>
    (parseDecDigits rest).bind (fun n => if n ≤ 2 ^ 63 then some (-(n : Int)) else none)
  | 43 :: rest =>
    (parseDecDigits rest).bind (fun n => if n ≤ 2 ^ 63 - 1 then some ((n : Int)) else none)
  | _ =>
    (parseDecDigits s).bind (fun n => if n ≤ 2 ^ 63 - 1 then some ((n : Int)) else none)

/-- Models `strconv.ParseUint(s, 10, 64)`: decimal digits only (no sign),
64-bit range check. -/
def parseUintGo (s : Bytes) : Option Nat :=
  match s with
  | 45 :: _ => none
  | 43 :: _ => none
  | _ => (parseDecDigits s).bind (fun n => if n ≤ 2 ^ 64 - 1 then some n else none)

/-- Models `strconv.ParseFloat(s, 64)` on the plain decimal forms this codec
produces (optional sign, digits, optional point and fraction digits — the
encoder never emits exponent, hex or inf/NaN forms), returning the exact
decimal value as a rational (doubles are modeled by the value they denote). -/
def parseFloatCore (sgn : ℚ) (body : Bytes) : Option ℚ :=
  match body.dropWhile (fun b => b ≠ 46) with
  | [] => (parseDecDigits (body.takeWhile (fun b => b ≠ 46))).map
      (fun n => sgn * ((n : ℕ) : ℚ))
  | 46 :: fp =>
    (parseDecDigits (body.takeWhile (fun b => b ≠ 46))).bind (fun i =>
      (parseDecDigits fp).map (fun f =>
        sgn * ((i : ℚ) + ((f : ℕ) : ℚ) / (10 : ℚ) ^ fp.length)))
  | _ => none

/-- Sign dispatch of the modeled `strconv.ParseFloat`; see `parseFloatCore`
for the body grammar. -/
def parseFloatGo (s : Bytes) : Option ℚ :=
  match s with
  | 45 :: rest => parseFloatCore (-1) rest
  | 43 :: rest => parseFloatCore 1 rest
  | _ => parseFloatCore 1 s

/-- A Go byte-string blob with a decimal length header and a `:` (58)
separator, used by the modeled BSON document layer. -/
def bytesBlob (s : Bytes) : Bytes := natDecDigits s.length ++ 58 :: s

/-- Reads a decimal number terminated by `:` (58) from the front of a byte
string. -/
def readDecLen (s : Bytes) : Option (Nat × Bytes) :=
  let ds := s.takeWhile (fun b => 48 ≤ b && b ≤ 57)
  match s.dropWhile (fun b => 48 ≤ b && b ≤ 57) with
  | 58 :: tail => (parseDecDigits ds).map (fun n => (n, tail))
  | _ => none

/-- Reads a `bytesBlob` from the front of a byte string. -/
def readBytesBlob (s : Bytes) : Option (Bytes × Bytes) :=
  (readDecLen s).bind (fun e =>
    if e.1 ≤ e.2.length then some (e.2.take e.1, e.2.drop e.1) else none)

/-- A natural number as a blob of its base-256 digits. -/
def natBlob (n : Nat) : Bytes := bytesBlob (natDigitsLE 256 n n)

/-- Reads a `natBlob` from the front of a byte string. -/
def readNatBlob (s : Bytes) : Option (Nat × Bytes) :=
  (readBytesBlob s).map (fun e => (Nat.ofDigits 256 e.1, e.2))

/-- The zero `time.Time` instant (January 1, year 1, UTC) in Unix seconds:
`encodeTimestamp` writes the empty string for it. -/
def goZeroTimeUnix : Int := -62135596800

/-- One scalar value of a modeled BSON document: a tag byte and a
length-delimited payload. Container values yield `none` — the data model's
containers hold primitives (spec section 3), and the modeled document layer
covers exactly those. The layout models the external
`github.com/EverythingMe/bson` codec by its round-trip contract. -/
def elemBlob : SVal → Option Bytes
  | SVal.int v => some (1 :: natBlob (int64Pattern v))
  | SVal.uint v => some (2 :: natBlob v)
  | SVal.float q =>
    some (3 :: (if q < 0 then 1 else 0) :: (natBlob q.num.natAbs ++ natBlob q.den))
  | SVal.bool b => some [4, if b then 1 else 0]
  | SVal.text s => some (5 :: bytesBlob s)
  | SVal.binary s => some (6 :: bytesBlob s)
  | SVal.timestamp sec =>
    some (7 :: (if sec < 0 then 1 else 0) :: natBlob sec.natAbs)
  | _ => none

/-- Reads one scalar element written by `elemBlob`. -/
def parseElem (s : Bytes) : Option (SVal × Bytes) :=
  match s with
  | 1 :: rest =>
    (readNatBlob rest).map (fun e =>
      (SVal.int (if 2 ^ 63 ≤ e.1 then (e.1 : Int) - 2 ^ 64 else (e.1 : Int)), e.2))
  | 2 :: rest => (readNatBlob rest).map (fun e => (SVal.uint e.1, e.2))
  | 3 :: sgn :: rest =>
    (readNatBlob rest).bind (fun e1 =>
      (readNatBlob e1.2).map (fun e2 =>
        (SVal.float ((if sgn = 1 then -1 else 1) * (e1.1 : ℚ) / (e2.1 : ℚ)), e2.2)))
  | 4 :: b :: rest => some (SVal.bool (b = 1), rest)
  | 5 :: rest => (readBytesBlob rest).map (fun e => (SVal.text e.1, e.2))
  | 6 :: rest => (readBytesBlob rest).map (fun e => (SVal.binary e.1, e.2))
  | 7 :: sgn :: rest =>
    (readNatBlob rest).map (fun e =>
      (SVal.timestamp ((if sgn = 1 then -1 else 1) * (e.1 : Int)), e.2))
  | _ => none

/-- Models `bson.MarshalToStream` of a `[]interface{}` of primitive values
(used by `encodeSet`/`encodeList` in src/driver/redis/convert.go): an element
count and the concatenated element blobs. -/
def bsonMarshalList (elems : List SVal) : Option Bytes :=
  (elems.mapM elemBlob).map (fun blobs => natDecDigits elems.length ++ 58 :: blobs.flatten)

/-- Parses `count` elements written by `elemBlob`. -/
def parseElems : Nat → Bytes → Option (List SVal × Bytes)
  | 0, s => some ([], s)
  | k + 1, s =>
    (parseElem s).bind (fun e =>
      (parseElems k e.2).map (fun r => (e.1 :: r.1, r.2)))

/-- Models `bson.DecodeArray` over the modeled document layout. -/
def bsonDecodeArray (s : Bytes) : Option (List SVal) :=
  (readDecLen s).bind (fun e => (parseElems e.1 e.2).map (fun r => r.1))

/-- Models `bson.MarshalToStream` of a `schema.Map` (used by `encodeMap`):
an entry count and, per entry, a key blob and a value blob. -/
def bsonMarshalMap (entries : List (Bytes × SVal)) : Option Bytes :=
  (entries.mapM (fun e => (elemBlob e.2).map (fun vb => bytesBlob e.1 ++ vb))).map
    (fun blobs => natDecDigits entries.length ++ 58 :: blobs.flatten)

/-- Parses `count` map entries. -/
def parseMapEntries : Nat → Bytes → Option (List (Bytes × SVal) × Bytes)
  | 0, s => some ([], s)
  | k + 1, s =>
    (readBytesBlob s).bind (fun ke =>
      (parseElem ke.2).bind (fun ve =>
        (parseMapEntries k ve.2).map (fun r => ((ke.1, ve.1) :: r.1, r.2))))

/-- Models `bson.DecodeMap` over the modeled document layout. -/
def bsonDecodeMap (s : Bytes) : Option (List (Bytes × SVal)) :=
  (readDecLen s).bind (fun e => (parseMapEntries e.1 e.2).map (fun r => r.1))

/-- Embeds `Encoder.Encode` (src/driver/redis/convert.go lines 169-203) with
its helpers (lines 52-167): nil encodes as `N` (78); numbers as bare decimal
with no tag (`encodeInt`/`encodeUint` are `%d`, `encodeFloat` is `%f`);
bool as `b0`/`b1`; text as `x`+bytes, or `Z`+snappy at or above a positive
compression threshold; binary as `r`+bytes; a timestamp as `t`+Unix seconds,
or the empty string for the zero time; sets, lists and maps as
`s`/`l`/`m`+BSON document. -/
def goEncode (threshold : Nat) : Option SVal → Except String Bytes
  | none => Except.ok [78]
  | some (SVal.int v) => Except.ok (intDec v)
  | some (SVal.uint v) => Except.ok (natDecDigits v)
  | some (SVal.float q) => Except.ok (fmtF6 q)
  | some (SVal.bool b) => Except.ok (if b then [98, 49] else [98, 48])
  | some (SVal.text s) =>
    Except.ok (if 0 < threshold ∧ threshold ≤ s.length
      then 90 :: snappyEncode s else 120 :: s)
  | some (SVal.binary s) => Except.ok (114 :: s)
  | some (SVal.timestamp sec) =>
    Except.ok (if sec = goZeroTimeUnix then [] else 116 :: intDec sec)
  | some (SVal.set elems) =>
    match bsonMarshalList elems with
    | some b => Except.ok (115 :: b)
    | none => Except.error "Could not encode set"
  | some (SVal.list elems) =>
    match bsonMarshalList elems with
    | some b => Except.ok (108 :: b)
    | none => Except.error "Could not encode set"
  | some (SVal.map entries) =>
    match bsonMarshalMap entries with
    | some b => Except.ok (109 :: b)
    | none => Except.error "Could not encode set"

/-- Embeds `Decoder.decodeBool` (src/driver/redis/convert.go lines 241-252):
lowercase, then accept `1`/`true` and `0`/`false`. -/
def decodeBoolGo (v : Bytes) : Except String Bool :=
  let s := v.map asciiLowerByte
  if s = [49] ∨ s = strBytes "true" then Except.ok true
  else if s = [48] ∨ s = strBytes "false" then Except.ok false
  else Except.error "Invalid boolean argument"

/-- Embeds `Decoder.decodeNumber` (src/driver/redis/convert.go lines
345-363): try int, uint, float in order; `schema.InternalType` maps the
parsed Go value onto the internal type. -/
def decodeNumber (s : Bytes) : Except String SVal :=
  match parseIntGo s with
  | some v => Except.ok (SVal.int v)
  | none =>
    match parseUintGo s with
    | some v => Except.ok (SVal.uint v)
    | none =>
      match parseFloatGo s with
      | some q => Except.ok (SVal.float q)
      | none => Except.error "Invalid number format"

/-- Embeds `Decoder.Decode` (src/driver/redis/convert.go lines 365-410).
The input is `none` for a nil Go slice (which decodes to nil); an empty
non-nil slice hits `data[0]` and panics, modeled as an error. A leading `N`
decodes to nil; tagged payloads dispatch on the tag; an untagged string
starting with a digit or `-` is decoded as a bare number. The `ColumnType`
argument of the Go method is unused by it and omitted. -/
def goDecode : Option Bytes → Except String (Option SVal)
  | none => Except.ok none
  | some [] => Except.error "index out of range"
  | some (p :: value) =>
    if p = 78 then Except.ok none
    else if p = 105 then
      match parseIntGo value with
      | some v => Except.ok (some (SVal.int v))
      | none => Except.error "invalid int"
    else if p = 117 then
      match parseUintGo value with
      | some v => Except.ok (some (SVal.uint v))
      | none => Except.error "invalid uint"
    else if p = 102 then
      match parseFloatGo value with
      | some q => Except.ok (some (SVal.float q))
      | none => Except.error "invalid float"
    else if p = 98 then
      match decodeBoolGo value with
      | Except.ok b => Except.ok (some (SVal.bool b))
      | Except.error e => Except.error e
    else if p = 120 then Except.ok (some (SVal.text value))
    else if p = 122 then
      match lzwDecode value with
      | Except.ok s => Except.ok (some (SVal.text s))
      | Except.error e => Except.error e
    else if p = 90 then
      match snappyDecode value with
      | Except.ok s => Except.ok (some (SVal.text s))
      | Except.error e => Except.error e
    else if p = 114 then Except.ok (some (SVal.binary value))
    else if p = 116 then
      match parseIntGo value with
      | some v => Except.ok (some (SVal.timestamp v))
      | none => Except.error "invalid timestamp"
    else if p = 115 then
      match bsonDecodeArray value with
      | some elems => Except.ok (some (SVal.set elems))
      | none => Except.error "invalid set"
    else if p = 108 then
      match bsonDecodeArray value with
      | some elems => Except.ok (some (SVal.list elems))
      | none => Except.error "invalid list"
    else if p = 109 then
      match bsonDecodeMap value with
      | some entries => Except.ok (some (SVal.map entries))
      | none => Except.error "invalid map"
    else if (48 ≤ p ∧ p ≤ 57) ∨ p = 45 then
      match decodeNumber (p :: value) with
      | Except.ok v => Except.ok (some v)
      | Except.error e => Except.error e
    else Except.error "Invalid type prefix"

/-- Decoding the encoding: the composition the codec round-trip claim is
about. -/
def encodeDecode (threshold : Nat) (v : Option SVal) : Except String (Option SVal) :=
  match goEncode threshold v with
  | Except.error e => Except.error e
  | Except.ok b => goDecode (some b)

/-- The primitive values whose modeled BSON blob is faithful: scalars, with
`schema.Int` in int64 range and `schema.Uint` in uint64 range. Containers of
containers are outside the data model (spec section 3: containers hold
primitives). -/
def scalarOK : SVal → Prop
  | SVal.int v => -(2 ^ 63) ≤ v ∧ v < 2 ^ 63
  | SVal.uint v => v < 2 ^ 64
  | SVal.float _ => True
  | SVal.bool _ => True
  | SVal.text _ => True
  | SVal.binary _ => True
  | SVal.timestamp _ => True
  | SVal.set _ => False
  | SVal.list _ => False
  | SVal.map _ => False

/-! ### Theorems -/

theorem lexLt_cons_iff (a b : Nat) (as bs : Bytes) :
    lexLt (a :: as) (b :: bs) = true ↔ a < b ∨ (a = b ∧ lexLt as bs = true) := by
  simp only [lexLt]
  by_cases h1 : a < b
  · simp [h1]
  · by_cases h2 : b < a
    · simp [h1, h2]; omega
    · have : a = b := by omega
      simp [h1, h2, this]

theorem lexLt_irrefl (a : Bytes) : lexLt a a = false := by
  induction a with
  | nil => rfl
  | cons x xs ih => simp [lexLt, ih]

theorem lexLt_trans {a b c : Bytes} (hab : lexLt a b = true) (hbc : lexLt b c = true) :
    lexLt a c = true := by
  induction a generalizing b c with
  | nil =>
    cases b with
    | nil => exact absurd hab (by simp [lexLt])
    | cons y ys =>
      cases c with
      | nil => exact absurd hbc (by simp [lexLt])
      | cons z zs => simp [lexLt]
  | cons x xs ih =>
    cases b with
    | nil => exact absurd hab (by simp [lexLt])
    | cons y ys =>
      cases c with
      | nil => exact absurd hbc (by simp [lexLt])
      | cons z zs =>
        rw [lexLt_cons_iff] at hab hbc ⊢
        rcases hab with h1 | ⟨h1, h1'⟩ <;> rcases hbc with h2 | ⟨h2, h2'⟩
        · exact Or.inl (by omega)
        · exact Or.inl (by omega)
        · exact Or.inl (by omega)
        · exact Or.inr ⟨by omega, ih h1' h2'⟩

theorem lexLt_total (a b : Bytes) : lexLt a b = true ∨ a = b ∨ lexLt b a = true := by
  induction a generalizing b with
  | nil => cases b <;> simp [lexLt]
  | cons x xs ih =>
    cases b with
    | nil => simp [lexLt]
    | cons y ys =>
      rcases Nat.lt_trichotomy x y with h | h | h
      · exact Or.inl ((lexLt_cons_iff _ _ _ _).2 (Or.inl h))
      · subst h
        rcases ih ys with h' | h' | h'
        · exact Or.inl ((lexLt_cons_iff _ _ _ _).2 (Or.inr ⟨rfl, h'⟩))
        · exact Or.inr (Or.inl (by rw [h']))
        · exact Or.inr (Or.inr ((lexLt_cons_iff _ _ _ _).2 (Or.inr ⟨rfl, h'⟩)))
      · exact Or.inr (Or.inr ((lexLt_cons_iff _ _ _ _).2 (Or.inl h)))

theorem beDigits_length (base w n : Nat) : (beDigits base w n).length = w := by
  induction w generalizing n with
  | zero => rfl
  | succ w ih => simp [beDigits, ih]

theorem beDigits_lt (base w n : Nat) (hb : 1 < base) (hn : n < base ^ w) :
    ∀ d ∈ beDigits base w n, d < base := by
  induction w generalizing n with
  | zero => intro d hd; simp [beDigits] at hd
  | succ w ih =>
    intro d hd
    simp only [beDigits, List.mem_cons] at hd
    rcases hd with hd | hd
    · subst hd
      exact Nat.div_lt_of_lt_mul (by rw [← pow_succ]; exact hn)
    · exact ih _ (Nat.mod_lt _ (Nat.pos_pow_of_pos w (by omega))) d hd

theorem beDigits_lexLt (base w : Nat) (hb : 1 < base) :
    ∀ n m : Nat, n < m → m < base ^ w →
      lexLt (beDigits base w n) (beDigits base w m) = true := by
  induction w with
  | zero => intro n m hnm hm; simp at hm; omega
  | succ w ih =>
    intro n m hnm hm
    simp only [beDigits]
    rw [lexLt_cons_iff]
    by_cases hd : n / base ^ w < m / base ^ w
    · exact Or.inl hd
    · have heq : n / base ^ w = m / base ^ w :=
        Nat.le_antisymm (Nat.div_le_div_right hnm.le) (Nat.le_of_not_lt hd)
      have hmod : n % base ^ w < m % base ^ w := by
        have h1 := Nat.div_add_mod n (base ^ w)
        have h2 := Nat.div_add_mod m (base ^ w)
        have h3 : base ^ w * (n / base ^ w) = base ^ w * (m / base ^ w) := by rw [heq]
        omega
      exact Or.inr ⟨heq, ih _ _ hmod (Nat.mod_lt _ (Nat.pos_pow_of_pos w (by omega)))⟩

theorem nodup_length_eq_of_mem_iff {l1 l2 : List String} (h1 : l1.Nodup) (h2 : l2.Nodup)
    (h : ∀ p, p ∈ l1 ↔ p ∈ l2) : l1.length = l2.length := by
  have hset : l1.toFinset = l2.toFinset := by
    ext p; simp only [List.mem_toFinset]; exact h p
  calc l1.length = l1.toFinset.card := (List.toFinset_card_of_nodup h1).symm
    _ = l2.toFinset.card := by rw [hset]
    _ = l2.length := List.toFinset_card_of_nodup h2

theorem nodup_length_le_of_subset {S fk : List String} (hndS : S.Nodup)
    (hnd : fk.Nodup) (hsub : ∀ p ∈ S, p ∈ fk) : S.length ≤ fk.length := by
  have hsubF : S.toFinset ⊆ fk.toFinset := fun p hp => by
    rw [List.mem_toFinset] at hp ⊢; exact hsub p hp
  calc S.length = S.toFinset.card := (List.toFinset_card_of_nodup hndS).symm
    _ ≤ fk.toFinset.card := Finset.card_le_card hsubF
    _ = fk.length := List.toFinset_card_of_nodup hnd

theorem nodup_mem_iff_of_subset_of_length {S fk : List String} (hndS : S.Nodup)
    (hnd : fk.Nodup) (hsub : ∀ p ∈ S, p ∈ fk) (hlen : fk.length ≤ S.length) :
    ∀ p, p ∈ fk ↔ p ∈ S := by
  have hsubF : S.toFinset ⊆ fk.toFinset := fun p hp => by
    rw [List.mem_toFinset] at hp ⊢; exact hsub p hp
  have hcard : fk.toFinset.card ≤ S.toFinset.card := by
    rw [List.toFinset_card_of_nodup hnd, List.toFinset_card_of_nodup hndS]; exact hlen
  have heq : S.toFinset = fk.toFinset := Finset.eq_of_subset_of_card_le hsubF hcard
  intro p
  rw [← List.mem_toFinset (l := fk), ← heq, List.mem_toFinset]

/-- The first component of `compoundMatches` for a query without an ordering
clause is the success of the matching loop guarded by the expected-count
bound. -/
theorem compoundMatches_no_order (props fkeys : List String) :
    (compoundMatches props fkeys { by_ := "", ascending := true }).1 =
      if props.length < fkeys.length then false
      else (matchLoop fkeys { by_ := "", ascending := true } fkeys.length props 0).isSome := by
  have hord : QOrdering.isNil { by_ := "", ascending := true } = true := rfl
  simp only [compoundMatches, hord, Bool.true_eq_false, false_and, if_false, ite_false,
    and_false, if_neg, not_false_iff]
  norm_num
  by_cases h : props.length < fkeys.length
  · simp [h]
  · simp only [h, if_false, ite_false]
    rcases hm : matchLoop fkeys { by_ := "", ascending := true } fkeys.length props 0 with _ | m <;>
      simp [hm]

/-- C4: a compound secondary index on columns `[A, B, C]` matches a query with
no ordering clause if and only if the query's filter columns form a non-empty
prefix of `[A, B, C]`: as sets, the filter keys equal `{A}`, `{A, B}` or
`{A, B, C}`; in particular `{B}`, `{A, C}`, the empty set, and any filter set
containing a column outside the index do not match. -/
theorem C4_compound_prefix_matching (A B C : String) (hAB : A ≠ B) (hAC : A ≠ C) (hBC : B ≠ C)
    (fkeys : List String) (hnd : fkeys.Nodup) :
    (compoundMatches [A, B, C] fkeys { by_ := "", ascending := true }).1 = true ↔
      ∃ k, 1 ≤ k ∧ k ≤ 3 ∧ ∀ p, p ∈ fkeys ↔ p ∈ ([A, B, C].take k) := by
  rw [compoundMatches_no_order]
  have hlen3 : ([A, B, C] : List String).length = 3 := rfl
  by_cases h3 : ([A, B, C] : List String).length < fkeys.length
  · rw [if_pos h3]
    constructor
    · intro h; exact absurd h (by simp)
    · rintro ⟨k, hk1, hk3, hiff⟩
      have hndp : ([A, B, C].take k).Nodup :=
        (List.take_sublist _ _).nodup (by simp [hAB, hAC, hBC])
      have hlen := nodup_length_eq_of_mem_iff hnd hndp hiff
      have hlt : ([A, B, C].take k).length ≤ 3 := by
        rw [List.length_take]; omega
      omega
  · rw [if_neg h3]
    rw [hlen3] at h3
    by_cases hA : A ∈ fkeys
    · by_cases h1 : fkeys.length = 1
      · have hone : fkeys = [A] := by
          obtain ⟨a, ha⟩ := List.length_eq_one.mp h1
          subst ha
          simp only [List.mem_singleton] at hA
          rw [hA]
        constructor
        · intro _
          exact ⟨1, le_refl 1, by omega, by rw [hone]; intro p; simp⟩
        · intro _
          rw [h1]
          simp [matchLoop, hA]
      · have h1' : ¬ (1 = fkeys.length) := fun h => h1 h.symm
        by_cases hB : B ∈ fkeys
        · by_cases h2 : fkeys.length = 2
          · constructor
            · intro _
              refine ⟨2, by omega, by omega, ?_⟩
              apply nodup_mem_iff_of_subset_of_length (by simp [hAB]) hnd
              · intro p hp
                simp only [List.take, List.mem_cons, List.not_mem_nil, or_false] at hp
                rcases hp with rfl | rfl
                · exact hA
                · exact hB
              · simp [h2]
            · intro _
              rw [h2]
              simp [matchLoop, hA, hB]
          · have h2' : ¬ (2 = fkeys.length) := fun h => h2 h.symm
            by_cases hC : C ∈ fkeys
            · have hge3 : 3 ≤ fkeys.length := by
                have hs := nodup_length_le_of_subset (S := [A, B, C])
                  (by simp [hAB, hAC, hBC]) hnd ?_
                · simpa using hs
                · intro p hp
                  simp only [List.mem_cons, List.not_mem_nil, or_false] at hp
                  rcases hp with rfl | rfl | rfl
                  · exact hA
                  · exact hB
                  · exact hC
              have h3eq : fkeys.length = 3 := by omega
              constructor
              · intro _
                refine ⟨3, by omega, by omega, ?_⟩
                apply nodup_mem_iff_of_subset_of_length (by simp [hAB, hAC, hBC]) hnd
                · intro p hp
                  simp only [List.take, List.mem_cons, List.not_mem_nil, or_false] at hp
                  rcases hp with rfl | rfl | rfl
                  · exact hA
                  · exact hB
                  · exact hC
                · simp [h3eq]
              · intro _
                rw [h3eq]
                simp [matchLoop, hA, hB, hC]
            · have hloop : (matchLoop fkeys { by_ := "", ascending := true }
                  fkeys.length [A, B, C] 0) = none := by
                simp [matchLoop, hA, hB, hC, h1', h2', QOrdering.isNil]
              rw [hloop]
              constructor
              · intro h; exact absurd h (by simp)
              · rintro ⟨k, hk1, hk3, hiff⟩
                interval_cases k
                · have := nodup_length_eq_of_mem_iff hnd (by simp) hiff
                  simp at this
                  omega
                · have := nodup_length_eq_of_mem_iff hnd (by simp [hAB]) hiff
                  simp at this
                  omega
                · exact absurd ((hiff C).mpr (by simp)) hC
        · have hloop : (matchLoop fkeys { by_ := "", ascending := true }
              fkeys.length [A, B, C] 0) = none := by
            simp [matchLoop, hA, hB, h1', QOrdering.isNil]
          rw [hloop]
          constructor
          · intro h; exact absurd h (by simp)
          · rintro ⟨k, hk1, hk3, hiff⟩
            interval_cases k
            · have := nodup_length_eq_of_mem_iff hnd (by simp) hiff
              simp at this
              omega
            · exact absurd ((hiff B).mpr (by simp)) hB
            · exact absurd ((hiff B).mpr (by simp)) hB
    · have hloop : (matchLoop fkeys { by_ := "", ascending := true }
          fkeys.length [A, B, C] 0) = none := by
        simp [matchLoop, hA, QOrdering.isNil]
      rw [hloop]
      constructor
      · intro h; exact absurd h (by simp)
      · rintro ⟨k, hk1, hk3, hiff⟩
        interval_cases k
        · exact absurd ((hiff A).mpr (by simp)) hA
        · exact absurd ((hiff A).mpr (by simp)) hA
        · exact absurd ((hiff A).mpr (by simp)) hA


/-- Witness for C4 at concrete inputs: the index `[a, b, c]` and the filter
set `{a, b}` match. -/
theorem C4_compound_prefix_matching_witness :
    (compoundMatches ["a", "b", "c"] ["a", "b"] { by_ := "", ascending := true }).1 = true := by
  refine (C4_compound_prefix_matching "a" "b" "c" (by decide) (by decide) (by decide)
    ["a", "b"] (by decide)).mpr ⟨2, by decide, by decide, ?_⟩
  intro p
  exact Iff.rfl

theorem cacheGet_cacheSet (c : PropCache) (h : Nat) (p : List String) :
    cacheGet (cacheSet c h p) h = some p := by
  simp [cacheGet, cacheSet, List.find?]

/-- C10: the indexable-property computation is memoized in a single
process-wide cache keyed only by the FNV-1a/64 hash of the sorted
changed-property name list: for any two entity changes whose sorted
changed-property lists hash equally — even when they belong to different
tables or have different change kinds — `indexableProperties` returns the
same property list, namely the one computed and cached first. -/
theorem C10_indexable_cache_keyed_by_hash (c0 : PropCache) (t1 t2 : ModelTable)
    (rc1 rc2 : EntityChange)
    (hh : propertyListHash rc2.changedProperties = propertyListHash rc1.changedProperties) :
    (indexableProperties (indexableProperties c0 t1 rc1).2 t2 rc2).1 =
      (indexableProperties c0 t1 rc1).1 := by
  unfold indexableProperties
  rcases hget : cacheGet c0 (propertyListHash rc1.changedProperties) with _ | p
  · simp only [hget, hh, cacheGet_cacheSet]
  · simp only [hget, hh]

/-- Witness for C10 at concrete inputs: two changes on different tables with
different change kinds but the same sorted changed-property list get the
first change's computed property list from the cache. -/
theorem C10_indexable_cache_keyed_by_hash_witness :
    (indexableProperties
        (indexableProperties [] { primaryProps := ["id"], indexes := [["a", "b"]] }
          { changedProperties := ["a"], changeProps := ["a"],
            changeType := ChangeType.update }).2
        { primaryProps := ["pk"], indexes := [] }
        { changedProperties := ["a"], changeProps := ["a"],
          changeType := ChangeType.delete }).1 =
      (indexableProperties [] { primaryProps := ["id"], indexes := [["a", "b"]] }
        { changedProperties := ["a"], changeProps := ["a"],
          changeType := ChangeType.update }).1 :=
  C10_indexable_cache_keyed_by_hash [] _ _ _ _ rfl

theorem pipelineStepAcc_split (props : List String) (a b : List Bytes) (d : EntityDiff) :
    pipelineStepAcc props (a, b) d =
      (a ++ (pipelineStepAcc props ([], []) d).1, b ++ (pipelineStepAcc props ([], []) d).2) := by
  unfold pipelineStepAcc
  dsimp only
  split_ifs <;> simp

/-- The per-diff contribution of the pipeline loop, in closed form. -/
theorem pipelineStepAcc_empty (props : List String) (d : EntityDiff) :
    pipelineStepAcc props ([], []) d =
      ((if d.changeType ≠ ChangeType.delete ∧
            diffEntry props d true ≠ diffEntry props d false ∧
            diffEntry props d true ≠ []
          then [diffEntry props d true] else []),
       (if (d.changeType = ChangeType.delete ∧ diffEntry props d false ≠ []) ∨
            (d.changeType ≠ ChangeType.delete ∧
              diffEntry props d true ≠ diffEntry props d false ∧
              diffEntry props d false ≠ [])
          then [diffEntry props d false] else [])) := by
  unfold pipelineStepAcc
  by_cases h1 : d.changeType = ChangeType.delete
  · simp only [h1, ne_eq, not_true_eq_false, if_false, ite_false, false_and, false_or,
      true_and, if_neg, not_false_eq_true]
    by_cases h2 : diffEntry props d false = []
    · simp [h2]
    · simp [h2]
  · simp only [ne_eq, h1, not_false_eq_true, if_true, ite_true, true_and, and_false,
      false_or]
    by_cases h2 : diffEntry props d true = diffEntry props d false
    · simp [h2]
    · simp only [h2, not_false_eq_true, if_true, ite_true, true_and]
      by_cases h3 : diffEntry props d true = []
      · by_cases h4 : diffEntry props d false = []
        · exact absurd (h3.trans h4.symm) h2
        · simp [h3, h4, List.length_pos]
      · by_cases h4 : diffEntry props d false = []
        · simp [h3, h4, List.length_pos]
        · simp [h3, h4, List.length_pos]

theorem pipelineRun_foldl_append (props : List String) (diffs : List EntityDiff) :
    ∀ a b, diffs.foldl (pipelineStepAcc props) (a, b) =
      (a ++ (pipelineRun props diffs).1, b ++ (pipelineRun props diffs).2) := by
  induction diffs with
  | nil => intro a b; simp [pipelineRun]
  | cons d ds ih =>
    intro a b
    show ds.foldl _ (pipelineStepAcc props (a, b) d) = _
    rw [pipelineStepAcc_split]
    rcases h : pipelineStepAcc props ([], []) d with ⟨u, v⟩
    have hrun : pipelineRun props (d :: ds) =
        (u ++ (pipelineRun props ds).1, v ++ (pipelineRun props ds).2) := by
      show ds.foldl _ (pipelineStepAcc props ([], []) d) = _
      rw [h, ih]
    rw [ih, hrun]
    simp

/-- C5 (amended): in the indexing pipeline of a compound secondary index,
every entity diff is classified as follows: a DELETE diff enqueues a REMOVE
of the old entry when that entry is non-empty (and nothing otherwise); an
INSERT or UPDATE diff computes the old and the new entry and, if they
differ, enqueues REMOVE(old) and ADD(new), each only when non-empty; if the
two entries are identical, nothing is enqueued for that diff. -/
theorem C5_pipeline_classification (props : List String) (diffs : List EntityDiff) :
    pipelineRun props diffs =
      (diffs.filterMap (fun d =>
          if d.changeType ≠ ChangeType.delete ∧
              diffEntry props d true ≠ diffEntry props d false ∧
              diffEntry props d true ≠ []
          then some (diffEntry props d true) else none),
       diffs.filterMap (fun d =>
          if (d.changeType = ChangeType.delete ∧ diffEntry props d false ≠ []) ∨
              (d.changeType ≠ ChangeType.delete ∧
                diffEntry props d true ≠ diffEntry props d false ∧
                diffEntry props d false ≠ [])
          then some (diffEntry props d false) else none)) := by
  induction diffs with
  | nil => rfl
  | cons d ds ih =>
    have hstep : pipelineRun props (d :: ds) =
        ((pipelineStepAcc props ([], []) d).1 ++ (pipelineRun props ds).1,
         (pipelineStepAcc props ([], []) d).2 ++ (pipelineRun props ds).2) := by
      show ds.foldl _ (pipelineStepAcc props ([], []) d) = _
      rcases h : pipelineStepAcc props ([], []) d with ⟨u, v⟩
      rw [pipelineRun_foldl_append]
    rw [hstep, ih, pipelineStepAcc_empty]
    rw [List.filterMap_cons, List.filterMap_cons]
    split_ifs <;> simp_all

/-- Counterexample to C5 as stated: a DELETE diff whose old entry is empty
(here: the single indexed column's old value is nil, so
`CompoundIndex.entry` returns `""`) enqueues no REMOVE at all — the claim's
unconditional "a DELETE diff enqueues a REMOVE of the old entry" fails. -/
theorem C5_pipeline_delete_empty_counterexample :
    pipelineRun ["a"]
        [{ id := [105, 100], diffs := [("a", (none, none))],
           changeType := ChangeType.delete }] = ([], []) := by
  rfl

theorem lexLt_append_same (p x y : Bytes) : lexLt (p ++ x) (p ++ y) = lexLt x y := by
  induction p with
  | nil => rfl
  | cons a as ih => simp [lexLt, ih]

theorem hexDigitChar_mono {d1 d2 : Nat} (h : d1 < d2) (h2 : d2 < 16) :
    hexDigitChar d1 < hexDigitChar d2 := by
  unfold hexDigitChar
  split_ifs <;> omega

theorem hexByte_lexLt {a b : Nat} (hab : a < b) (hb : b < 256) {r1 r2 : Bytes} :
    lexLt (hexByte a ++ r1) (hexByte b ++ r2) = true := by
  unfold hexByte
  by_cases hd : a / 16 < b / 16
  · simp only [List.cons_append, List.nil_append]
    rw [lexLt_cons_iff]
    exact Or.inl (hexDigitChar_mono hd (by omega))
  · have heq : a / 16 = b / 16 := by omega
    have hmod : a % 16 < b % 16 := by omega
    simp only [List.cons_append, List.nil_append, heq]
    rw [lexLt_cons_iff]
    refine Or.inr ⟨rfl, ?_⟩
    rw [lexLt_cons_iff]
    exact Or.inl (hexDigitChar_mono hmod (by omega))

theorem hexEncode_lexLt : ∀ as bs : Bytes, (∀ x ∈ bs, x < 256) →
    lexLt as bs = true → lexLt (hexEncode as) (hexEncode bs) = true := by
  intro as
  induction as with
  | nil =>
    intro bs _ h
    cases bs with
    | nil => exact absurd h (by simp [lexLt])
    | cons b bs' => simp [hexEncode, hexByte, lexLt]
  | cons a as' ih =>
    intro bs hb h
    cases bs with
    | nil => exact absurd h (by simp [lexLt])
    | cons b bs' =>
      rw [lexLt_cons_iff] at h
      simp only [hexEncode, List.map_cons, List.flatten_cons]
      rcases h with h | ⟨heq, h⟩
      · exact hexByte_lexLt h (hb b (by simp))
      · subst heq
        rw [lexLt_append_same]
        exact ih bs' (fun x hx => hb x (by simp [hx])) h

theorem magValZ_strictMono {m1 m2 : Nat} (h12 : m1 < m2) (h2 : m2 < 2 ^ 63) :
    magValZ m1 < magValZ m2 := by
  have hf1 : m1 % 2 ^ 52 < 2 ^ 52 := Nat.mod_lt _ (by norm_num)
  have hf2 : m2 % 2 ^ 52 < 2 ^ 52 := Nat.mod_lt _ (by norm_num)
  have hd1 := Nat.div_add_mod m1 (2 ^ 52)
  have hd2 := Nat.div_add_mod m2 (2 ^ 52)
  have hee : m1 / 2 ^ 52 ≤ m2 / 2 ^ 52 := Nat.div_le_div_right h12.le
  have key : ∀ c1 E1 : Nat, c1 + m1 % 2 ^ 52 < 2 ^ 53 → E1 + 1 ≤ max (m2 / 2 ^ 52) 1 →
      (c1 + m1 % 2 ^ 52) * 2 ^ E1 < (2 ^ 52 + m2 % 2 ^ 52) * 2 ^ (max (m2 / 2 ^ 52) 1) := by
    intro c1 E1 hc hE
    calc (c1 + m1 % 2 ^ 52) * 2 ^ E1
        < 2 ^ 53 * 2 ^ E1 := by
          exact mul_lt_mul_of_pos_right hc (Nat.pos_pow_of_pos E1 (by norm_num))
      _ = 2 ^ (53 + E1) := by rw [← pow_add]
      _ ≤ 2 ^ (52 + max (m2 / 2 ^ 52) 1) := Nat.pow_le_pow_right (by norm_num) (by omega)
      _ = 2 ^ 52 * 2 ^ (max (m2 / 2 ^ 52) 1) := by rw [pow_add]
      _ ≤ (2 ^ 52 + m2 % 2 ^ 52) * 2 ^ (max (m2 / 2 ^ 52) 1) :=
          Nat.mul_le_mul_right _ (by omega)
  unfold magValZ
  rcases eq_or_lt_of_le hee with heq | hlt
  · rw [← heq]
    have hff : m1 % 2 ^ 52 < m2 % 2 ^ 52 := by
      have hmul : 2 ^ 52 * (m1 / 2 ^ 52) = 2 ^ 52 * (m2 / 2 ^ 52) := by rw [heq]
      omega
    exact mul_lt_mul_of_pos_right (by omega) (Nat.pos_pow_of_pos _ (by norm_num))
  · have he2 : m2 / 2 ^ 52 ≠ 0 := by omega
    have hmax2 : max (m2 / 2 ^ 52) 1 = m2 / 2 ^ 52 := max_eq_left (by omega)
    rw [if_neg he2]
    by_cases h10 : m1 / 2 ^ 52 = 0
    · rw [if_pos h10, h10]
      by_cases h21 : m2 / 2 ^ 52 = 1
      · rw [h21]
        norm_num
        omega
      · exact key 0 (max 0 1) (by omega) (by rw [hmax2]; norm_num; omega)
    · rw [if_neg h10]
      have hmax1 : max (m1 / 2 ^ 52) 1 = m1 / 2 ^ 52 := max_eq_left (by omega)
      rw [hmax1]
      exact key (2 ^ 52) (m1 / 2 ^ 52) (by omega) (by rw [hmax2]; omega)

theorem magValZ_le_mono {m1 m2 : Nat} (h12 : m1 ≤ m2) (h2 : m2 < 2 ^ 63) :
    magValZ m1 ≤ magValZ m2 := by
  rcases eq_or_lt_of_le h12 with heq | hlt
  · rw [heq]
  · exact (magValZ_strictMono hlt h2).le

theorem magValZ_lt_rev {m1 m2 : Nat} (h1 : m1 < 2 ^ 63) (h2 : m2 < 2 ^ 63)
    (h : magValZ m1 < magValZ m2) : m1 < m2 := by
  by_contra hc
  exact absurd h (not_lt.mpr (magValZ_le_mono (Nat.le_of_not_lt hc) h1))

/-- The code's float bit transform is strictly monotone from the numeric
order of the denoted doubles to the numeric order of 64-bit patterns. -/
theorem floatSortKey_mono {a b : Nat} (ha : a < 2 ^ 64) (hb : b < 2 ^ 64)
    (h : floatVal a < floatVal b) : floatSortKey a < floatSortKey b := by
  unfold floatVal at h
  unfold floatSortKey
  have hma : a % 2 ^ 63 < 2 ^ 63 := Nat.mod_lt _ (by norm_num)
  have hmb : b % 2 ^ 63 < 2 ^ 63 := Nat.mod_lt _ (by norm_num)
  by_cases sa : 2 ^ 63 ≤ a <;> by_cases sb : 2 ^ 63 ≤ b
  · rw [if_pos sa, if_pos sb]
    rw [if_pos sa, if_pos sb] at h
    have hlt : magValZ (b % 2 ^ 63) < magValZ (a % 2 ^ 63) := by
      have h1 : (0 : Int) ≤ (magValZ (a % 2 ^ 63) : Int) := Int.ofNat_nonneg _
      have h2 : (0 : Int) ≤ (magValZ (b % 2 ^ 63) : Int) := Int.ofNat_nonneg _
      omega
    have := magValZ_lt_rev hmb hma hlt
    omega
  · rw [if_pos sa, if_neg sb]
    omega
  · rw [if_neg sa, if_pos sb] at h
    have h1 : (0 : Int) ≤ (magValZ (a % 2 ^ 63) : Int) := Int.ofNat_nonneg _
    have h2 : (0 : Int) ≤ (magValZ (b % 2 ^ 63) : Int) := Int.ofNat_nonneg _
    omega
  · rw [if_neg sa, if_neg sb]
    rw [if_neg sa, if_neg sb] at h
    have hlt : magValZ (a % 2 ^ 63) < magValZ (b % 2 ^ 63) := by omega
    have := magValZ_lt_rev hma hmb hlt
    omega

theorem floatSortKey_lt_2_64 {x : Nat} (hx : x < 2 ^ 64) : floatSortKey x < 2 ^ 64 := by
  unfold floatSortKey
  split_ifs <;> omega

theorem prepareUintBytes_lexLt {n1 n2 : Nat} (h : n1 < n2) (h2 : n2 < 2 ^ 64) :
    lexLt (prepareUintBytes n1) (prepareUintBytes n2) = true := by
  unfold prepareUintBytes beBytes8
  apply hexEncode_lexLt
  · exact beDigits_lt 256 8 n2 (by norm_num) (by norm_num; omega)
  · exact beDigits_lexLt 256 8 (by norm_num) n1 n2 h (by norm_num; omega)

/-- C2: the float index encoding is strictly order-preserving: for non-NaN
IEEE 754 double patterns `a`, `b` whose denoted values satisfy `a < b`
(expressed by `floatVal`), the `prepareValue` encoding — reinterpret the
double as a 64-bit unsigned pattern, invert all bits when the sign bit is
set and set only the sign bit otherwise, then write 8-byte big-endian hex —
produces strictly increasing byte strings under lexicographic comparison. -/
theorem C2_float_encoding_order_preserving (a b : Nat) (ha : a < 2 ^ 64) (hb : b < 2 ^ 64)
    (hna : ¬ floatIsNaN a) (hnb : ¬ floatIsNaN b) (hab : floatVal a < floatVal b) :
    lexLt (prepareFloatBytes a) (prepareFloatBytes b) = true := by
  unfold prepareFloatBytes
  exact prepareUintBytes_lexLt (floatSortKey_mono ha hb hab) (floatSortKey_lt_2_64 hb)

/-- Witness for C2 at concrete patterns: `0` is `+0.0` and
`0x3FF0000000000000` is `1.0`; the prepared encoding of the former sorts
strictly below that of the latter. -/
theorem C2_float_encoding_order_preserving_witness :
    lexLt (prepareFloatBytes 0) (prepareFloatBytes 0x3FF0000000000000) = true :=
  C2_float_encoding_order_preserving 0 0x3FF0000000000000 (by decide) (by decide)
    (by decide) (by decide) (by
      show floatVal 0 < floatVal 0x3FF0000000000000
      have h0 : floatVal 0 = 0 := by decide
      rw [h0]
      unfold floatVal
      rw [if_neg (by decide : ¬ (2 : Nat) ^ 63 ≤ 0x3FF0000000000000), one_mul]
      rw [(by decide : (0x3FF0000000000000 : Nat) % 2 ^ 63 = 0x3FF0000000000000)]
      unfold magValZ
      rw [if_neg (by decide : ¬ (0x3FF0000000000000 : Nat) / 2 ^ 52 = 0)]
      exact_mod_cast Int.ofNat_pos.mpr (by positivity))

theorem generateIdLoop_congr (cols : List String) :
    ∀ (e1 e2 : PEntity) (key : Bytes),
      (∀ p ∈ cols, lookupProp e1.props p = lookupProp e2.props p) →
      generateIdLoop e1 cols key = generateIdLoop e2 cols key := by
  induction cols with
  | nil => intro e1 e2 key _; rfl
  | cons c cs ih =>
    intro e1 e2 key h
    have hc := h c (by simp)
    simp only [generateIdLoop, hc]
    rcases lookupProp e2.props c with _ | v
    · rfl
    · rcases v with _ | v
      · rfl
      · exact ih e1 e2 _ (fun p hp => h p (by simp [hp]))

/-- C3: for a compound primary index on `[name, surname]` with `hashed`
unset, `GenerateId` of an entity with name `"john"` and surname `"doe"`
returns the id `"john|doe|"` (each prepared column value with a `|`
appended, so the id carries a trailing `|`), and `GenerateId` is
deterministic: two entities with the same column values get the same id. -/
theorem C3_compound_id_stable :
    (generateId ["name", "surname"] false
        { id := [], props := [("name", some (PVal.text (strBytes "john"))),
                              ("surname", some (PVal.text (strBytes "doe")))], ttl := 0 } =
      Except.ok (strBytes "john|doe|")) ∧
    ∀ e1 e2 : PEntity,
      (∀ p ∈ ["name", "surname"], lookupProp e1.props p = lookupProp e2.props p) →
      generateId ["name", "surname"] false e1 = generateId ["name", "surname"] false e2 := by
  constructor
  · rfl
  · intro e1 e2 h
    unfold generateId
    rw [generateIdLoop_congr ["name", "surname"] e1 e2 [] h]

/-- Witness for C3's determinism clause at concrete entities: the same column
values in different bag orders (and different ids and extra properties) give
the same generated id. -/
theorem C3_compound_id_stable_witness :
    generateId ["name", "surname"] false
        { id := [120], props := [("name", some (PVal.text (strBytes "john"))),
                                 ("surname", some (PVal.text (strBytes "doe")))], ttl := 0 } =
      generateId ["name", "surname"] false
        { id := [], props := [("surname", some (PVal.text (strBytes "doe"))),
                              ("name", some (PVal.text (strBytes "john"))),
                              ("age", some (PVal.int 3))], ttl := 5 } :=
  C3_compound_id_stable.2 _ _ (by intro p hp; fin_cases hp <;> rfl)

theorem generateIdLoop_ok_of_no_missing (ent : PEntity) :
    ∀ (cols : List String) (key : Bytes),
      (∀ c ∈ cols, ∃ v, lookupProp ent.props c = some (some v)) →
      ∃ r, generateIdLoop ent cols key = Except.ok r := by
  intro cols
  induction cols with
  | nil => intro key _; exact ⟨key, rfl⟩
  | cons c cs ih =>
    intro key h
    obtain ⟨v, hv⟩ := h c (by simp)
    simp only [generateIdLoop, hv]
    exact ih _ (fun c' hc' => h c' (by simp [hc']))

theorem generateId_error_of_missing (cols : List String) (hashed : Bool) (ent : PEntity)
    (h : ∃ c ∈ cols, lookupProp ent.props c = none ∨ lookupProp ent.props c = some none) :
    ∃ e, generateId cols hashed ent = Except.error e := by
  unfold generateId
  suffices hs : ∀ key, ∃ e, generateIdLoop ent cols key = Except.error e by
    obtain ⟨e, he⟩ := hs []
    exact ⟨e, by rw [he]; rfl⟩
  induction cols with
  | nil => simp at h
  | cons c cs ih =>
    intro key
    obtain ⟨c', hc', hbad⟩ := h
    rcases List.mem_cons.mp hc' with rfl | htail
    · rcases hbad with hbad | hbad <;> simp [generateIdLoop, hbad]
    · simp only [generateIdLoop]
      rcases hl : lookupProp ent.props c with _ | v
      · exact ⟨_, rfl⟩
      · rcases v with _ | v
        · exact ⟨_, rfl⟩
        · exact ih ⟨c', htail, hbad⟩ _

theorem tablePutLoop_error_of_missing (cols : List String) (hashed : Bool) :
    ∀ (entities : List PEntity) (ids : List Bytes) (cs : List PutEntityChange),
      (∃ ent ∈ entities, ∃ c ∈ cols,
        lookupProp ent.props c = none ∨ lookupProp ent.props c = some none) →
      ∃ e, tablePutLoop cols hashed entities ids cs = Except.error e := by
  intro entities
  induction entities with
  | nil => intro ids cs h; simp at h
  | cons ent rest ih =>
    intro ids cs h
    obtain ⟨ent', hent', hbad⟩ := h
    rcases List.mem_cons.mp hent' with rfl | htail
    · obtain ⟨e, he⟩ := generateId_error_of_missing cols hashed ent' hbad
      exact ⟨e, by simp [tablePutLoop, he]⟩
    · simp only [tablePutLoop]
      rcases hg : generateId cols hashed ent with e | id
      · exact ⟨e, rfl⟩
      · exact ih _ _ ⟨ent', htail, hbad⟩

/-- C9: for a table whose primary index is compound, `Put` of a batch
containing an entity that lacks a value (missing from the property bag, or
nil) for some declared primary column returns an error and performs no row
or index mutation: the change set is never executed, so the store (the log
of executed change sets) is unchanged. -/
theorem C9_put_missing_primary_column_no_mutation (cols : List String) (hashed : Bool)
    (entities : List PEntity) (store : List (List PutEntityChange))
    (h : ∃ ent ∈ entities, ∃ c ∈ cols,
      lookupProp ent.props c = none ∨ lookupProp ent.props c = some none) :
    (∃ e, (tablePut cols hashed entities store).1 = Except.error e) ∧
      (tablePut cols hashed entities store).2 = store := by
  obtain ⟨e, he⟩ := tablePutLoop_error_of_missing cols hashed entities [] [] h
  unfold tablePut
  rw [he]
  exact ⟨⟨e, rfl⟩, rfl⟩

/-- Witness for C9 at a concrete input: putting an entity that has `name` but
no `surname` into a table with compound primary `[name, surname]` errors and
leaves the (empty) execution log empty. -/
theorem C9_put_missing_primary_column_no_mutation_witness :
    (∃ e, (tablePut ["name", "surname"] false
        [{ id := [], props := [("name", some (PVal.text (strBytes "john")))], ttl := 0 }]
        []).1 = Except.error e) ∧
      (tablePut ["name", "surname"] false
        [{ id := [], props := [("name", some (PVal.text (strBytes "john")))], ttl := 0 }]
        []).2 = [] :=
  C9_put_missing_primary_column_no_mutation ["name", "surname"] false
    [{ id := [], props := [("name", some (PVal.text (strBytes "john")))], ttl := 0 }] []
    ⟨{ id := [], props := [("name", some (PVal.text (strBytes "john")))], ttl := 0 },
      by simp, "surname", by simp, Or.inl rfl⟩

theorem zrangeElems_empty_of_swapped (store : List Bytes) (rsBody reBody : Bytes)
    (hwf : lexLt reBody rsBody = false) :
    zrangeElems store (40 :: reBody) (91 :: rsBody) = [] := by
  unfold zrangeElems
  rw [List.filter_eq_nil_iff]
  intro x _
  simp only [minBoundOk, maxBoundOk, Bool.and_eq_true, Bool.not_eq_true', not_and]
  intro h1 h2
  rcases lexLt_total x rsBody with h3 | h3 | h3
  · rw [lexLt_trans h1 h3] at hwf
    exact absurd hwf (by simp)
  · subst h3
    rw [h1] at hwf
    exact absurd hwf (by simp)
  · rw [h3] at h2
    exact absurd h2 (by simp)

theorem primaryFindLoop_total (f : Bytes → Nat) (t : Nat) :
    ∀ ids : List Bytes, (primaryFindLoop ids (ids.map f ++ [t])).2.2 = t := by
  intro ids
  induction ids with
  | nil => rfl
  | cons id rest ih =>
    simp only [List.map_cons, List.cons_append, primaryFindLoop]
    by_cases h : f id = 1 <;> simp [h, ih]

theorem primaryFind_total (rows pstore ids : List Bytes) :
    (primaryFind rows pstore ids).2.1 = pstore.length := by
  unfold primaryFind
  dsimp only
  exact primaryFindLoop_total _ _ ids

/-- C6 (amended): the total a Find reports is not in general the count of
entities matching the filter set. For a compound secondary index it is the
ZLEXCOUNT over the first three arguments of the range command: on ascending
(or unordered) queries that is the full count of keys in the find's range,
independent of offset and limit; on descending queries the bounds reach
ZLEXCOUNT in swapped positions, so the total is the count of the inverted
range — 0 whenever the range's high bound does not sort below its low bound.
For a primary-index id lookup the total is the ZCARD of the whole primary
index, not the number of matching ids. -/
theorem C6_total_semantics :
    (∀ (props : List String) (store : List Bytes) (filters : List (String × QFilter))
        (offset limit : Int) (order : QOrdering) (rs re : Bytes),
        rangeKeys props filters order = Except.ok (rs, re) →
        (order.isNil = true ∨ order.ascending = true) →
        ∃ ids, compoundFind props store filters offset limit order =
          Except.ok (ids, (zrangeElems store rs re).length)) ∧
    (∀ (props : List String) (store : List Bytes) (filters : List (String × QFilter))
        (offset limit : Int) (order : QOrdering) (rsBody reBody : Bytes),
        rangeKeys props filters order = Except.ok (91 :: rsBody, 40 :: reBody) →
        order.isNil = false → order.ascending = false →
        lexLt reBody rsBody = false →
        ∃ ids, compoundFind props store filters offset limit order = Except.ok (ids, 0)) ∧
    (∀ rows pstore ids : List Bytes, (primaryFind rows pstore ids).2.1 = pstore.length) := by
  refine ⟨?_, ?_, primaryFind_total⟩
  · intro props store filters offset limit order rs re hr hord
    have hdesc : ¬ (order.isNil = false ∧ order.ascending = false) := by
      rcases hord with h | h <;> simp [h]
    unfold compoundFind
    rw [hr]
    dsimp only
    rw [if_neg hdesc, if_neg hdesc]
    exact ⟨_, rfl⟩
  · intro props store filters offset limit order rsBody reBody hr hnil hasc hwf
    have hdesc : order.isNil = false ∧ order.ascending = false := ⟨hnil, hasc⟩
    unfold compoundFind
    rw [hr]
    dsimp only
    rw [if_pos hdesc, if_pos hdesc]
    have hz : zlexcount store (40 :: reBody) (91 :: rsBody) = 0 := by
      unfold zlexcount
      rw [zrangeElems_empty_of_swapped store rsBody reBody hwf]
      rfl
    rw [hz]
    exact ⟨_, rfl⟩

/-- Counterexample to C6 as stated: looking up one id by primary key in a
table holding two rows returns 1 matching id but total 2 — the ZCARD of the
entire primary index, not the number of matching ids (the repository's own
test asserts this: redis_test.go expects `Total == N+1` after an id lookup
of 3 ids). Here `rows = pstore = ["a", "b"]` and the lookup is `["a"]`. -/
theorem C6_primary_total_counterexample :
    ((primaryFind [[97], [98]] [[97], [98]] [[97]]).1).length = 1 ∧
      (primaryFind [[97], [98]] [[97], [98]] [[97]]).2.1 = 2 := by
  constructor <;> rfl

/-- Witness for C6 at concrete inputs: an ascending find over a one-entry
index reports total 1 whatever the paging; a descending find over the same
data reports total 0 (swapped ZLEXCOUNT bounds); a primary lookup of the one
existing id reports the primary's cardinality. -/
theorem C6_total_semantics_witness :
    (∃ ids, compoundFind ["name"] [[97, 124, 58, 58, 49]]
        [("name", { property := "name", operator := FOp.eq,
                    values := [some (PVal.text [97])] })] 0 10
        { by_ := "", ascending := true } = Except.ok (ids, 1)) ∧
    (∃ ids, compoundFind ["name"] [[97, 124, 58, 58, 49]]
        [("name", { property := "name", operator := FOp.eq,
                    values := [some (PVal.text [97])] })] 0 10
        { by_ := "name", ascending := false } = Except.ok (ids, 0)) ∧
    (primaryFind [[97]] [[97]] [[97]]).2.1 = 1 := by
  refine ⟨?_, ?_, C6_total_semantics.2.2 [[97]] [[97]] [[97]]⟩
  · obtain ⟨ids, h⟩ := C6_total_semantics.1 ["name"] [[97, 124, 58, 58, 49]]
      [("name", { property := "name", operator := FOp.eq,
                  values := [some (PVal.text [97])] })] 0 10
      { by_ := "", ascending := true } [91, 97, 124] [40, 97, 124, 255] rfl (Or.inl rfl)
    exact ⟨ids, h⟩
  · obtain ⟨ids, h⟩ := C6_total_semantics.2.1 ["name"] [[97, 124, 58, 58, 49]]
      [("name", { property := "name", operator := FOp.eq,
                  values := [some (PVal.text [97])] })] 0 10
      { by_ := "name", ascending := false } [97, 124] [97, 124, 255] rfl rfl rfl rfl
    exact ⟨ids, h⟩

/-- C7 (amended): every compound-secondary Find with offset `o ≥ 0` and limit
`l > 0` — unordered, ascending or descending — sends `LIMIT o (o+l)`: the
Redis count argument is `offset+limit`, not `limit`. The returned ids are
the members at positions `o` through `o + (o+l) − 1` of the range (of the
reversed range for a descending find, whose total reads the ZLEXCOUNT bounds
swapped): up to `o+l` ids, not up to `l`. -/
theorem C7_paging_limit_count (props : List String) (store : List Bytes)
    (filters : List (String × QFilter)) (o l : Int) (order : QOrdering) (rs re : Bytes)
    (hr : rangeKeys props filters order = Except.ok (rs, re))
    (ho : 0 ≤ o) (hl : 0 < l) :
    compoundFind props store filters o l order =
      Except.ok
        (((((if order.isNil = false ∧ order.ascending = false
                then (zrangeElems store rs re).reverse
                else zrangeElems store rs re).drop o.toNat).take (o + l).toNat).map
            extractId),
          if order.isNil = false ∧ order.ascending = false
            then (zrangeElems store re rs).length
            else (zrangeElems store rs re).length) ∧
    ((((if order.isNil = false ∧ order.ascending = false
            then (zrangeElems store rs re).reverse
            else zrangeElems store rs re).drop o.toNat).take (o + l).toNat).map
        extractId).length ≤ (o + l).toNat := by
  by_cases hdesc : order.isNil = false ∧ order.ascending = false
  · constructor
    · unfold compoundFind
      rw [hr]
      dsimp only
      rw [if_pos hdesc, if_pos hdesc, if_pos hl]
      show Except.ok ((applyLimit o (o + l) (zrangeElems store rs re).reverse).map
        extractId, zlexcount store re rs) = _
      unfold applyLimit
      rw [if_neg (by omega : ¬ o + l < 0), if_pos hdesc, if_pos hdesc]
      rfl
    · rw [if_pos hdesc, List.length_map, List.length_take]
      omega
  · constructor
    · unfold compoundFind
      rw [hr]
      dsimp only
      rw [if_neg hdesc, if_neg hdesc, if_pos hl]
      show Except.ok ((applyLimit o (o + l) (zrangeElems store rs re)).map extractId,
        zlexcount store rs re) = _
      unfold applyLimit
      rw [if_neg (by omega : ¬ o + l < 0), if_neg hdesc, if_neg hdesc]
      rfl
    · rw [if_neg hdesc, List.length_map, List.length_take]
      omega

/-- Counterexample to C7 as stated: with three entries in range, offset 1 and
limit 1, the find returns the ids at positions 1 and 2 — two ids, more than
the requested limit of one — because the code passes `LIMIT 1 2`
(`offset+limit`) instead of `LIMIT 1 1`. -/
theorem C7_at_most_limit_counterexample :
    compoundFind ["name"]
        [[97, 124, 58, 58, 49], [97, 124, 58, 58, 50], [97, 124, 58, 58, 51]]
        [("name", { property := "name", operator := FOp.eq,
                    values := [some (PVal.text [97])] })] 1 1
        { by_ := "", ascending := true } = Except.ok ([[50], [51]], 3) ∧
      ¬ (([[50], [51]] : List Bytes).length ≤ 1) := by
  exact ⟨rfl, by decide⟩

/-- Witness for C7 at concrete inputs (the same index data as the
counterexample), instantiated at a descending ordering with offset 1,
limit 1: the find pages the reversed range with `LIMIT 1 2`. -/
theorem C7_paging_limit_count_witness :
    compoundFind ["name"]
        [[97, 124, 58, 58, 49], [97, 124, 58, 58, 50], [97, 124, 58, 58, 51]]
        [("name", { property := "name", operator := FOp.eq,
                    values := [some (PVal.text [97])] })] 1 1
        { by_ := "name", ascending := false } =
      Except.ok
        (((((if ({ by_ := "name", ascending := false } : QOrdering).isNil = false ∧
                ({ by_ := "name", ascending := false } : QOrdering).ascending = false
              then (zrangeElems
                [[97, 124, 58, 58, 49], [97, 124, 58, 58, 50], [97, 124, 58, 58, 51]]
                [91, 97, 124] [40, 97, 124, 255]).reverse
              else zrangeElems
                [[97, 124, 58, 58, 49], [97, 124, 58, 58, 50], [97, 124, 58, 58, 51]]
                [91, 97, 124] [40, 97, 124, 255]).drop (1 : Int).toNat).take
            ((1 : Int) + 1).toNat).map extractId),
          if ({ by_ := "name", ascending := false } : QOrdering).isNil = false ∧
              ({ by_ := "name", ascending := false } : QOrdering).ascending = false
            then (zrangeElems
              [[97, 124, 58, 58, 49], [97, 124, 58, 58, 50], [97, 124, 58, 58, 51]]
              [40, 97, 124, 255] [91, 97, 124]).length
            else (zrangeElems
              [[97, 124, 58, 58, 49], [97, 124, 58, 58, 50], [97, 124, 58, 58, 51]]
              [91, 97, 124] [40, 97, 124, 255]).length) :=
  (C7_paging_limit_count ["name"]
    [[97, 124, 58, 58, 49], [97, 124, 58, 58, 50], [97, 124, 58, 58, 51]]
    [("name", { property := "name", operator := FOp.eq,
                values := [some (PVal.text [97])] })] 1 1
    { by_ := "name", ascending := false } [91, 97, 124] [40, 97, 124, 255] rfl
    (by norm_num) (by norm_num)).1

theorem natDigitsLE_eq (base : Nat) (hb : 2 ≤ base) :
    ∀ fuel n, n ≤ fuel → natDigitsLE base fuel n = Nat.digits base n := by
  intro fuel
  induction fuel with
  | zero =>
    intro n hn
    have : n = 0 := Nat.le_zero.mp hn
    subst this
    simp [natDigitsLE]
  | succ fuel ih =>
    intro n hn
    by_cases h : n = 0
    · subst h; simp [natDigitsLE]
    · rw [natDigitsLE, if_neg h, ih (n / base) (by
        have := Nat.div_lt_self (Nat.pos_of_ne_zero h) (by omega : 1 < base)
        omega),
        Nat.digits_def' (by omega : 1 < base) (Nat.pos_of_ne_zero h)]

theorem natDecDigits_ne_nil (n : Nat) : natDecDigits n ≠ [] := by
  unfold natDecDigits
  by_cases h : n = 0
  · simp [h]
  · rw [if_neg h]
    simp only [ne_eq, List.reverse_eq_nil_iff, List.map_eq_nil_iff]
    rw [natDigitsLE_eq 10 (by norm_num) n n le_rfl]
    exact Nat.digits_ne_nil_iff_ne_zero.mpr h

theorem natDecDigits_all_digits (n : Nat) :
    ∀ b ∈ natDecDigits n, 48 ≤ b ∧ b ≤ 57 := by
  unfold natDecDigits
  by_cases h : n = 0
  · simp [h]
  · rw [if_neg h]
    intro b hb
    rw [List.mem_reverse, List.mem_map] at hb
    obtain ⟨d, hd, rfl⟩ := hb
    rw [natDigitsLE_eq 10 (by norm_num) n n le_rfl] at hd
    have := Nat.digits_lt_base (by norm_num) hd
    omega

theorem natDecDigits_shape (n : Nat) :
    ∃ b t, natDecDigits n = b :: t ∧ 48 ≤ b ∧ b ≤ 57 := by
  cases e : natDecDigits n with
  | nil => exact absurd e (natDecDigits_ne_nil n)
  | cons b t =>
    refine ⟨b, t, rfl, ?_⟩
    have := natDecDigits_all_digits n b
    rw [e] at this
    exact this (by simp)

theorem parseDecDigits_map48 (l : List Nat) (hl : l ≠ [])
    (hd : ∀ d ∈ l, d < 10) :
    parseDecDigits (l.map (fun d => d + 48)) = some (Nat.ofDigits 10 l.reverse) := by
  unfold parseDecDigits
  rw [if_neg (by simpa using hl), if_pos]
  · congr 1
    have hmm : (l.map (fun d => d + 48)).map (fun b => b - 48) = l := by
      rw [List.map_map]
      have : ∀ d ∈ l, ((fun b => b - 48) ∘ fun d => d + 48) d = id d := by
        intro d _; simp
      rw [List.map_congr_left this, List.map_id]
    rw [hmm]
  · rw [List.all_eq_true]
    intro b hb
    rw [List.mem_map] at hb
    obtain ⟨d, hdm, rfl⟩ := hb
    have := hd d hdm
    simp only [Bool.and_eq_true, decide_eq_true_eq]
    omega

theorem parseDecDigits_natDecDigits (n : Nat) :
    parseDecDigits (natDecDigits n) = some n := by
  by_cases h : n = 0
  · subst h; decide
  · have hshape : natDecDigits n = ((Nat.digits 10 n).reverse).map (fun d => d + 48) := by
      unfold natDecDigits
      rw [if_neg h, natDigitsLE_eq 10 (by norm_num) n n le_rfl, List.map_reverse]
    rw [hshape, parseDecDigits_map48]
    · rw [List.reverse_reverse, Nat.ofDigits_digits]
    · simp [Nat.digits_ne_nil_iff_ne_zero.mpr h]
    · intro d hd
      rw [List.mem_reverse] at hd
      exact Nat.digits_lt_base (by norm_num) hd

theorem parseDecDigits_none_of_mem46 (s : Bytes) (h46 : (46 : Nat) ∈ s) :
    parseDecDigits s = none := by
  unfold parseDecDigits
  rw [if_neg (List.ne_nil_of_mem h46), if_neg]
  rw [List.all_eq_true]
  intro hall
  have := hall 46 h46
  simp at this

theorem takeWhile_append_stop {p : Nat → Bool} :
    ∀ (l : List Nat) (y : Nat) (r : List Nat), (∀ x ∈ l, p x = true) → p y = false →
      (l ++ y :: r).takeWhile p = l ∧ (l ++ y :: r).dropWhile p = y :: r := by
  intro l
  induction l with
  | nil =>
    intro y r _ hy
    simp [List.takeWhile_cons, List.dropWhile_cons, hy]
  | cons a l ih =>
    intro y r hl hy
    have ha : p a = true := hl a (by simp)
    have := ih y r (fun x hx => hl x (by simp [hx])) hy
    simp [List.takeWhile_cons, List.dropWhile_cons, ha, this.1, this.2]

theorem readDecLen_spec (n : Nat) (rest : Bytes) :
    readDecLen (natDecDigits n ++ 58 :: rest) = some (n, rest) := by
  have h := takeWhile_append_stop (p := fun b => 48 ≤ b && b ≤ 57)
    (natDecDigits n) 58 rest
    (by
      intro x hx
      have := natDecDigits_all_digits n x hx
      simp only [Bool.and_eq_true, decide_eq_true_eq]
      omega)
    (by decide)
  unfold readDecLen
  rw [h.1, h.2]
  show Option.map (fun m => (m, rest)) (parseDecDigits (natDecDigits n)) = some (n, rest)
  rw [parseDecDigits_natDecDigits]
  rfl

theorem readBytesBlob_spec (s rest : Bytes) :
    readBytesBlob (bytesBlob s ++ rest) = some (s, rest) := by
  have hshape : bytesBlob s ++ rest = natDecDigits s.length ++ 58 :: (s ++ rest) := by
    simp [bytesBlob]
  rw [hshape]
  unfold readBytesBlob
  rw [readDecLen_spec]
  show (if s.length ≤ (s ++ rest).length
      then some ((s ++ rest).take s.length, (s ++ rest).drop s.length)
      else none) = some (s, rest)
  rw [if_pos (by simp)]
  rw [List.take_append_eq_append_take, List.drop_append_eq_append_drop]
  simp

theorem ofDigits_natDigitsLE (base n : Nat) (hb : 2 ≤ base) :
    Nat.ofDigits base (natDigitsLE base n n) = n := by
  rw [natDigitsLE_eq base hb n n le_rfl, Nat.ofDigits_digits]

theorem readNatBlob_spec (n : Nat) (rest : Bytes) :
    readNatBlob (natBlob n ++ rest) = some (n, rest) := by
  unfold readNatBlob natBlob
  rw [readBytesBlob_spec]
  simp [ofDigits_natDigitsLE 256 n (by norm_num)]

theorem ofDigits_beDigits_reverse :
    ∀ (w m : Nat), m < 10 ^ w → Nat.ofDigits 10 ((beDigits 10 w m).reverse) = m := by
  intro w
  induction w with
  | zero =>
    intro m hm
    have : m = 0 := by simpa using hm
    subst this
    simp [beDigits]
  | succ w ih =>
    intro m hm
    rw [beDigits, List.reverse_cons, Nat.ofDigits_append,
      ih (m % 10 ^ w) (Nat.mod_lt _ (by positivity))]
    rw [List.length_reverse, beDigits_length]
    have hsingle : Nat.ofDigits 10 [m / 10 ^ w] = m / 10 ^ w := by
      simp [Nat.ofDigits]
    rw [hsingle]
    exact Nat.mod_add_div m (10 ^ w)

theorem parseDecDigits_pad6 (m : Nat) (hm : m < 10 ^ 6) :
    parseDecDigits ((beDigits 10 6 m).map (fun d => d + 48)) = some m := by
  rw [parseDecDigits_map48]
  · rw [ofDigits_beDigits_reverse 6 m hm]
  · have := beDigits_length 10 6 m
    intro h
    rw [h] at this
    simp at this
  · exact beDigits_lt 10 6 m (by norm_num) hm

theorem parseElem_tag1 (x : Bytes) :
    parseElem (1 :: x) = (readNatBlob x).map (fun e =>
      (SVal.int (if 2 ^ 63 ≤ e.1 then (e.1 : Int) - 2 ^ 64 else (e.1 : Int)), e.2)) := rfl

theorem parseElem_tag2 (x : Bytes) :
    parseElem (2 :: x) = (readNatBlob x).map (fun e => (SVal.uint e.1, e.2)) := rfl

theorem parseElem_tag3 (s : Nat) (x : Bytes) :
    parseElem (3 :: s :: x) = (readNatBlob x).bind (fun e1 =>
      (readNatBlob e1.2).map (fun e2 =>
        (SVal.float ((if s = 1 then -1 else 1) * (e1.1 : ℚ) / (e2.1 : ℚ)), e2.2))) := rfl

theorem parseElem_tag4 (x : Nat) (rest : Bytes) :
    parseElem (4 :: x :: rest) = some (SVal.bool (x = 1), rest) := rfl

theorem parseElem_tag5 (x : Bytes) :
    parseElem (5 :: x) = (readBytesBlob x).map (fun e => (SVal.text e.1, e.2)) := rfl

theorem parseElem_tag6 (x : Bytes) :
    parseElem (6 :: x) = (readBytesBlob x).map (fun e => (SVal.binary e.1, e.2)) := rfl

theorem parseElem_tag7 (s : Nat) (x : Bytes) :
    parseElem (7 :: s :: x) = (readNatBlob x).map (fun e =>
      (SVal.timestamp ((if s = 1 then -1 else 1) * (e.1 : Int)), e.2)) := rfl

theorem parseElem_blob (v : SVal) (hv : scalarOK v) (b : Bytes)
    (hb : elemBlob v = some b) (rest : Bytes) :
    parseElem (b ++ rest) = some (v, rest) := by
  cases v with
  | int x =>
    obtain ⟨hv1, hv2⟩ := hv
    have hb' : b = 1 :: natBlob (int64Pattern x) := by
      simpa [elemBlob, eq_comm] using hb
    subst hb'
    rw [List.cons_append, parseElem_tag1, readNatBlob_spec]
    have hval : (if 2 ^ 63 ≤ int64Pattern x
        then ((int64Pattern x : Nat) : Int) - 2 ^ 64
        else ((int64Pattern x : Nat) : Int)) = x := by
      have h2 : ((2 : Int) ^ 64) = 18446744073709551616 := by norm_num
      have h3 : ((2 : Nat) ^ 63) = 9223372036854775808 := by norm_num
      have h4 : ((2 : Int) ^ 63) = 9223372036854775808 := by norm_num
      unfold int64Pattern
      rw [h2, h3]
      rw [h4] at hv1 hv2
      have h2' : ((2 : Int) ^ 64) = 18446744073709551616 := h2
      split_ifs <;> omega
    show some (SVal.int (if 2 ^ 63 ≤ int64Pattern x
        then ((int64Pattern x : Nat) : Int) - 2 ^ 64
        else ((int64Pattern x : Nat) : Int)), rest) = some (SVal.int x, rest)
    rw [hval]
  | uint x =>
    have hb' : b = 2 :: natBlob x := by simpa [elemBlob, eq_comm] using hb
    subst hb'
    rw [List.cons_append, parseElem_tag2, readNatBlob_spec]
    rfl
  | float q =>
    have hb' : b = 3 :: (if q < 0 then 1 else 0) ::
        (natBlob q.num.natAbs ++ natBlob q.den) := by
      simpa [elemBlob, eq_comm] using hb
    subst hb'
    rw [List.cons_append, List.cons_append, List.append_assoc,
      parseElem_tag3, readNatBlob_spec]
    show (readNatBlob (natBlob q.den ++ rest)).map _ = _
    rw [readNatBlob_spec]
    have hval : (if (if q < 0 then (1 : Nat) else 0) = 1 then (-1 : ℚ) else 1) *
        ((q.num.natAbs : Nat) : ℚ) / ((q.den : Nat) : ℚ) = q := by
      by_cases hq : q < 0
      · have hnum : q.num < 0 := Rat.num_neg.mpr hq
        have habs : ((q.num.natAbs : Nat) : ℚ) = -((q.num : ℚ)) := by
          have h : ((q.num.natAbs : ℕ) : ℤ) = -q.num := by omega
          rw [(Int.cast_natCast q.num.natAbs).symm, h, Int.cast_neg]
        rw [if_pos hq, if_pos rfl, habs, neg_mul, one_mul, neg_neg, Rat.num_div_den]
      · have hnum : 0 ≤ q.num := Rat.num_nonneg.mpr (not_lt.mp hq)
        have habs : ((q.num.natAbs : Nat) : ℚ) = ((q.num : ℚ)) := by
          have h : ((q.num.natAbs : ℕ) : ℤ) = q.num := by omega
          rw [(Int.cast_natCast q.num.natAbs).symm, h]
        rw [if_neg hq, if_neg (by norm_num), habs, one_mul, Rat.num_div_den]
    show some (SVal.float ((if (if q < 0 then (1 : Nat) else 0) = 1 then (-1 : ℚ) else 1) *
        ((q.num.natAbs : Nat) : ℚ) / ((q.den : Nat) : ℚ)), rest) = some (SVal.float q, rest)
    rw [hval]
  | bool x =>
    have hb' : b = [4, if x then 1 else 0] := by simpa [elemBlob, eq_comm] using hb
    subst hb'
    cases x <;> simp [parseElem_tag4]
  | text s =>
    have hb' : b = 5 :: bytesBlob s := by simpa [elemBlob, eq_comm] using hb
    subst hb'
    rw [List.cons_append, parseElem_tag5, readBytesBlob_spec]
    rfl
  | binary s =>
    have hb' : b = 6 :: bytesBlob s := by simpa [elemBlob, eq_comm] using hb
    subst hb'
    rw [List.cons_append, parseElem_tag6, readBytesBlob_spec]
    rfl
  | timestamp sec =>
    have hb' : b = 7 :: (if sec < 0 then 1 else 0) :: natBlob sec.natAbs := by
      simpa [elemBlob, eq_comm] using hb
    subst hb'
    rw [List.cons_append, List.cons_append, parseElem_tag7, readNatBlob_spec]
    have hval : (if (if sec < 0 then (1 : Nat) else 0) = 1 then (-1 : Int) else 1) *
        ((sec.natAbs : Nat) : Int) = sec := by
      by_cases hs : sec < 0
      · rw [if_pos hs, if_pos rfl]; omega
      · rw [if_neg hs, if_neg (by norm_num)]; omega
    show some (SVal.timestamp ((if (if sec < 0 then (1 : Nat) else 0) = 1
        then (-1 : Int) else 1) * ((sec.natAbs : Nat) : Int)), rest) =
      some (SVal.timestamp sec, rest)
    rw [hval]
  | set elems => exact hv.elim
  | list elems => exact hv.elim
  | map entries => exact hv.elim

theorem elemBlob_some (v : SVal) (hv : scalarOK v) : ∃ b, elemBlob v = some b := by
  cases v with
  | int x => exact ⟨_, rfl⟩
  | uint x => exact ⟨_, rfl⟩
  | float q => exact ⟨_, rfl⟩
  | bool x => exact ⟨_, rfl⟩
  | text s => exact ⟨_, rfl⟩
  | binary s => exact ⟨_, rfl⟩
  | timestamp sec => exact ⟨_, rfl⟩
  | set elems => exact hv.elim
  | list elems => exact hv.elim
  | map entries => exact hv.elim

theorem mapM_elemBlob_some :
    ∀ (elems : List SVal), (∀ v ∈ elems, scalarOK v) →
      ∃ blobs, elems.mapM elemBlob = some blobs := by
  intro elems
  induction elems with
  | nil => intro _; exact ⟨[], rfl⟩
  | cons a l ih =>
    intro h
    obtain ⟨b, hb⟩ := elemBlob_some a (h a (by simp))
    obtain ⟨bs, hbs⟩ := ih (fun v hv => h v (by simp [hv]))
    exact ⟨b :: bs, by rw [List.mapM_cons, hb, hbs]; rfl⟩

theorem parseElems_flatten :
    ∀ (elems : List SVal) (blobs : List Bytes) (rest : Bytes),
      (∀ v ∈ elems, scalarOK v) → elems.mapM elemBlob = some blobs →
      parseElems elems.length (blobs.flatten ++ rest) = some (elems, rest) := by
  intro elems
  induction elems with
  | nil =>
    intro blobs rest _ hm
    have : blobs = [] := by
      have : (some [] : Option (List Bytes)) = some blobs := hm
      exact (Option.some_injective _ this).symm
    subst this
    rfl
  | cons a l ih =>
    intro blobs rest h hm
    obtain ⟨b, hb⟩ := elemBlob_some a (h a (by simp))
    obtain ⟨bs, hbs⟩ := mapM_elemBlob_some l (fun v hv => h v (by simp [hv]))
    have hblobs : blobs = b :: bs := by
      rw [List.mapM_cons, hb, hbs] at hm
      exact (Option.some_injective _ hm).symm
    subst hblobs
    show (parseElem ((b :: bs).flatten ++ rest)).bind _ = _
    have hfl : (b :: bs).flatten ++ rest = b ++ (bs.flatten ++ rest) := by
      simp [List.flatten_cons]
    rw [hfl, parseElem_blob a (h a (by simp)) b hb]
    show (parseElems l.length (bs.flatten ++ rest)).map _ = _
    rw [ih bs rest (fun v hv => h v (by simp [hv])) hbs]
    rfl

theorem bsonDecodeArray_marshal (elems : List SVal) (doc : Bytes)
    (h : ∀ v ∈ elems, scalarOK v) (hdoc : bsonMarshalList elems = some doc) :
    bsonDecodeArray doc = some elems := by
  obtain ⟨blobs, hblobs⟩ := mapM_elemBlob_some elems h
  have hdoc' : doc = natDecDigits elems.length ++ 58 :: blobs.flatten := by
    unfold bsonMarshalList at hdoc
    rw [hblobs] at hdoc
    exact (Option.some_injective _ hdoc).symm
  subst hdoc'
  unfold bsonDecodeArray
  rw [readDecLen_spec]
  show (parseElems elems.length blobs.flatten).map _ = _
  rw [show blobs.flatten = blobs.flatten ++ [] by simp,
    parseElems_flatten elems blobs [] h hblobs]
  rfl

theorem mapM_entryBlob_some :
    ∀ (entries : List (Bytes × SVal)), (∀ e ∈ entries, scalarOK e.2) →
      ∃ blobs, entries.mapM
        (fun e => (elemBlob e.2).map (fun vb => bytesBlob e.1 ++ vb)) = some blobs := by
  intro entries
  induction entries with
  | nil => intro _; exact ⟨[], rfl⟩
  | cons a l ih =>
    intro h
    obtain ⟨b, hb⟩ := elemBlob_some a.2 (h a (by simp))
    obtain ⟨bs, hbs⟩ := ih (fun e he => h e (by simp [he]))
    exact ⟨(bytesBlob a.1 ++ b) :: bs, by rw [List.mapM_cons, hb, hbs]; rfl⟩

theorem parseMapEntries_flatten :
    ∀ (entries : List (Bytes × SVal)) (blobs : List Bytes) (rest : Bytes),
      (∀ e ∈ entries, scalarOK e.2) →
      entries.mapM (fun e => (elemBlob e.2).map (fun vb => bytesBlob e.1 ++ vb)) =
        some blobs →
      parseMapEntries entries.length (blobs.flatten ++ rest) = some (entries, rest) := by
  intro entries
  induction entries with
  | nil =>
    intro blobs rest _ hm
    have : blobs = [] := by
      have : (some [] : Option (List Bytes)) = some blobs := hm
      exact (Option.some_injective _ this).symm
    subst this
    rfl
  | cons a l ih =>
    intro blobs rest h hm
    obtain ⟨b, hb⟩ := elemBlob_some a.2 (h a (by simp))
    obtain ⟨bs, hbs⟩ := mapM_entryBlob_some l (fun e he => h e (by simp [he]))
    have hblobs : blobs = (bytesBlob a.1 ++ b) :: bs := by
      rw [List.mapM_cons, hb, hbs] at hm
      exact (Option.some_injective _ hm).symm
    subst hblobs
    show (readBytesBlob (((bytesBlob a.1 ++ b) :: bs).flatten ++ rest)).bind _ = _
    have hfl : ((bytesBlob a.1 ++ b) :: bs).flatten ++ rest =
        bytesBlob a.1 ++ (b ++ (bs.flatten ++ rest)) := by
      simp [List.flatten_cons]
    rw [hfl, readBytesBlob_spec]
    show (parseElem (b ++ (bs.flatten ++ rest))).bind _ = _
    rw [parseElem_blob a.2 (h a (by simp)) b hb]
    show (parseMapEntries l.length (bs.flatten ++ rest)).map _ = _
    rw [ih bs rest (fun e he => h e (by simp [he])) hbs]
    rfl

theorem bsonDecodeMap_marshal (entries : List (Bytes × SVal)) (doc : Bytes)
    (h : ∀ e ∈ entries, scalarOK e.2) (hdoc : bsonMarshalMap entries = some doc) :
    bsonDecodeMap doc = some entries := by
  obtain ⟨blobs, hblobs⟩ := mapM_entryBlob_some entries h
  have hdoc' : doc = natDecDigits entries.length ++ 58 :: blobs.flatten := by
    unfold bsonMarshalMap at hdoc
    rw [hblobs] at hdoc
    exact (Option.some_injective _ hdoc).symm
  subst hdoc'
  unfold bsonDecodeMap
  rw [readDecLen_spec]
  show (parseMapEntries entries.length blobs.flatten).map _ = _
  rw [show blobs.flatten = blobs.flatten ++ [] by simp,
    parseMapEntries_flatten entries blobs [] h hblobs]
  rfl

theorem parseFloatCore_spec (sgn : ℚ) (N1 N2 : Nat) (h2 : N2 < 10 ^ 6) :
    parseFloatCore sgn
      (natDecDigits N1 ++ 46 :: (beDigits 10 6 N2).map (fun d => d + 48)) =
    some (sgn * ((N1 : ℚ) + (N2 : ℚ) / 10 ^ 6)) := by
  have htake := takeWhile_append_stop (p := fun b => b ≠ 46)
    (natDecDigits N1) 46 ((beDigits 10 6 N2).map (fun d => d + 48))
    (by
      intro x hx
      have := natDecDigits_all_digits N1 x hx
      simp only [ne_eq, decide_not, Bool.not_eq_true', decide_eq_false_iff_not]
      omega)
    (by simp)
  unfold parseFloatCore
  rw [htake.2, htake.1]
  show (parseDecDigits (natDecDigits N1)).bind _ = _
  rw [parseDecDigits_natDecDigits]
  show (parseDecDigits ((beDigits 10 6 N2).map (fun d => d + 48))).map _ = _
  rw [parseDecDigits_pad6 N2 h2]
  show some (sgn * ((N1 : ℚ) + (N2 : ℚ) /
    (10 : ℚ) ^ ((beDigits 10 6 N2).map (fun d => d + 48)).length)) = _
  rw [List.length_map, beDigits_length]

theorem roundHalfEven_intCast (z : Int) : roundHalfEven ((z : ℤ) : ℚ) = z := by
  unfold roundHalfEven
  rw [Int.floor_intCast]
  rw [if_pos (by rw [sub_self]; norm_num)]

theorem fmtF6_num (q : ℚ) (hden : (q * 1000000).den = 1) :
    ((roundHalfEven (|q| * 1000000)).toNat : ℚ) = |q| * 1000000 := by
  have habs : |q| * 1000000 = |q * 1000000| := by
    rw [abs_mul]
    norm_num
  have hint : ((q * 1000000).num : ℚ) = q * 1000000 := by
    conv_rhs => rw [← Rat.num_div_den (q * 1000000)]
    rw [hden]
    simp
  have habs2 : |q * 1000000| = (((q * 1000000).num.natAbs : ℕ) : ℚ) := by
    conv_lhs => rw [← hint]
    rw [← Int.cast_abs, Int.abs_eq_natAbs, Int.cast_natCast]
  have hcast : (((q * 1000000).num.natAbs : ℕ) : ℚ) =
      ((((q * 1000000).num.natAbs : ℕ) : ℤ) : ℚ) := (Int.cast_natCast _).symm
  rw [habs, habs2, hcast, roundHalfEven_intCast, Int.toNat_natCast]
  exact hcast

theorem fmtF6_eq (q : ℚ) :
    fmtF6 q = (if q < 0 then [45] else []) ++
      (natDecDigits ((roundHalfEven (|q| * 1000000)).toNat / 1000000) ++
        46 :: (beDigits 10 6 ((roundHalfEven (|q| * 1000000)).toNat % 1000000)).map
          (fun d => d + 48)) := by
  unfold fmtF6
  simp [List.append_assoc]

theorem parseFloatGo_fmtF6 (q : ℚ) (hden : (q * 1000000).den = 1) :
    parseFloatGo (fmtF6 q) = some q := by
  set n := (roundHalfEven (|q| * 1000000)).toNat with hn
  have hkey : (n : ℚ) = |q| * 1000000 := fmtF6_num q hden
  have hmod : n % 1000000 < 10 ^ 6 := by
    have : (1000000 : ℕ) = 10 ^ 6 := by norm_num
    rw [← this]
    exact Nat.mod_lt _ (by norm_num)
  have hsplit : ((n / 1000000 : ℕ) : ℚ) + ((n % 1000000 : ℕ) : ℚ) / 10 ^ 6 =
      (n : ℚ) / 10 ^ 6 := by
    have hdm : 1000000 * (n / 1000000) + n % 1000000 = n := Nat.div_add_mod n 1000000
    have hcast : (1000000 : ℚ) * ((n / 1000000 : ℕ) : ℚ) + ((n % 1000000 : ℕ) : ℚ) =
        (n : ℚ) := by exact_mod_cast congrArg (fun m : ℕ => (m : ℚ)) hdm
    have h10 : ((10 : ℚ) ^ 6) = 1000000 := by norm_num
    rw [h10]
    field_simp
    linarith [hcast]
  have hval : (n : ℚ) / 10 ^ 6 = |q| := by
    rw [hkey]
    have h10 : ((10 : ℚ) ^ 6) = 1000000 := by norm_num
    rw [h10]
    field_simp
  by_cases hq : q < 0
  · have : fmtF6 q = 45 :: (natDecDigits (n / 1000000) ++
        46 :: (beDigits 10 6 (n % 1000000)).map (fun d => d + 48)) := by
      rw [fmtF6_eq, if_pos hq, ← hn]
      rfl
    rw [this]
    show parseFloatCore (-1) _ = some q
    rw [parseFloatCore_spec (-1) (n / 1000000) (n % 1000000) hmod, hsplit, hval,
      abs_of_neg hq]
    norm_num
  · have hshape : fmtF6 q = natDecDigits (n / 1000000) ++
        46 :: (beDigits 10 6 (n % 1000000)).map (fun d => d + 48) := by
      rw [fmtF6_eq, if_neg hq, ← hn]
      rfl
    obtain ⟨b, t, hbt, hb1, hb2⟩ := natDecDigits_shape (n / 1000000)
    have hshape2 : fmtF6 q = b :: (t ++
        46 :: (beDigits 10 6 (n % 1000000)).map (fun d => d + 48)) := by
      rw [hshape, hbt]
      rfl
    rw [hshape2]
    unfold parseFloatGo
    split
    · rename_i heq
      injection heq with h45 _
      omega
    · rename_i heq
      injection heq with h43 _
      omega
    · rw [← hshape2, hshape]
      rw [parseFloatCore_spec 1 (n / 1000000) (n % 1000000) hmod, hsplit, hval,
        abs_of_nonneg (not_lt.mp hq)]
      norm_num

theorem parseIntGo_default (b : Nat) (t : Bytes) (h45 : b ≠ 45) (h43 : b ≠ 43) :
    parseIntGo (b :: t) = (parseDecDigits (b :: t)).bind
      (fun n => if n ≤ 2 ^ 63 - 1 then some ((n : Int)) else none) := by
  unfold parseIntGo
  split
  · rename_i heq; injection heq with h _; exact absurd h h45
  · rename_i heq; injection heq with h _; exact absurd h h43
  · rfl

theorem parseUintGo_default (b : Nat) (t : Bytes) (h45 : b ≠ 45) (h43 : b ≠ 43) :
    parseUintGo (b :: t) = (parseDecDigits (b :: t)).bind
      (fun n => if n ≤ 2 ^ 64 - 1 then some n else none) := by
  unfold parseUintGo
  split
  · rename_i heq; injection heq with h _; exact absurd h h45
  · rename_i heq; injection heq with h _; exact absurd h h43
  · rfl

theorem mem46_fmtF6 (q : ℚ) : (46 : Nat) ∈ fmtF6 q := by
  rw [fmtF6_eq]
  simp

theorem parseIntGo_fmtF6 (q : ℚ) : parseIntGo (fmtF6 q) = none := by
  by_cases hq : q < 0
  · have hshape : fmtF6 q = 45 ::
        (natDecDigits ((roundHalfEven (|q| * 1000000)).toNat / 1000000) ++
          46 :: (beDigits 10 6 ((roundHalfEven (|q| * 1000000)).toNat % 1000000)).map
            (fun d => d + 48)) := by
      rw [fmtF6_eq, if_pos hq]; rfl
    rw [hshape]
    show (parseDecDigits _).bind _ = none
    rw [parseDecDigits_none_of_mem46 _ (by simp)]
    rfl
  · obtain ⟨b, t, hbt, hb1, hb2⟩ :=
      natDecDigits_shape ((roundHalfEven (|q| * 1000000)).toNat / 1000000)
    have hshape : fmtF6 q = b :: (t ++
        46 :: (beDigits 10 6 ((roundHalfEven (|q| * 1000000)).toNat % 1000000)).map
          (fun d => d + 48)) := by
      rw [fmtF6_eq, if_neg hq, hbt]; rfl
    rw [hshape, parseIntGo_default b _ (by omega) (by omega),
      parseDecDigits_none_of_mem46 _ (by simp)]
    rfl

theorem parseUintGo_fmtF6 (q : ℚ) : parseUintGo (fmtF6 q) = none := by
  by_cases hq : q < 0
  · have hshape : fmtF6 q = 45 ::
        (natDecDigits ((roundHalfEven (|q| * 1000000)).toNat / 1000000) ++
          46 :: (beDigits 10 6 ((roundHalfEven (|q| * 1000000)).toNat % 1000000)).map
            (fun d => d + 48)) := by
      rw [fmtF6_eq, if_pos hq]; rfl
    rw [hshape]
    rfl
  · obtain ⟨b, t, hbt, hb1, hb2⟩ :=
      natDecDigits_shape ((roundHalfEven (|q| * 1000000)).toNat / 1000000)
    have hshape : fmtF6 q = b :: (t ++
        46 :: (beDigits 10 6 ((roundHalfEven (|q| * 1000000)).toNat % 1000000)).map
          (fun d => d + 48)) := by
      rw [fmtF6_eq, if_neg hq, hbt]; rfl
    rw [hshape, parseUintGo_default b _ (by omega) (by omega),
      parseDecDigits_none_of_mem46 _ (by simp)]
    rfl

theorem decodeNumber_fmtF6 (q : ℚ) (hden : (q * 1000000).den = 1) :
    decodeNumber (fmtF6 q) = Except.ok (SVal.float q) := by
  unfold decodeNumber
  rw [parseIntGo_fmtF6, parseUintGo_fmtF6, parseFloatGo_fmtF6 q hden]

theorem parseIntGo_intDec (v : Int) (h1 : -(2 ^ 63) ≤ v) (h2 : v < 2 ^ 63) :
    parseIntGo (intDec v) = some v := by
  by_cases hv : v < 0
  · have hshape : intDec v = 45 :: natDecDigits v.natAbs := by
      unfold intDec
      rw [if_pos hv]
      rfl
    rw [hshape]
    show (parseDecDigits (natDecDigits v.natAbs)).bind _ = some v
    rw [parseDecDigits_natDecDigits]
    show (if v.natAbs ≤ 2 ^ 63 then some (-(v.natAbs : Int)) else none) = some v
    rw [if_pos (by omega)]
    congr 1
    omega
  · have hshape : intDec v = natDecDigits v.natAbs := by
      unfold intDec
      rw [if_neg hv]
      rfl
    obtain ⟨b, t, hbt, hb1, hb2⟩ := natDecDigits_shape v.natAbs
    rw [hshape, hbt, parseIntGo_default b t (by omega) (by omega), ← hbt,
      parseDecDigits_natDecDigits]
    show (if v.natAbs ≤ 2 ^ 63 - 1 then some ((v.natAbs : Int)) else none) = some v
    rw [if_pos (by omega)]
    congr 1
    omega

theorem decodeNumber_intDec (v : Int) (h1 : -(2 ^ 63) ≤ v) (h2 : v < 2 ^ 63) :
    decodeNumber (intDec v) = Except.ok (SVal.int v) := by
  unfold decodeNumber
  rw [parseIntGo_intDec v h1 h2]

theorem decodeNumber_natDec_small (v : Nat) (h : v < 2 ^ 63) :
    decodeNumber (natDecDigits v) = Except.ok (SVal.int (v : Int)) := by
  unfold decodeNumber
  obtain ⟨b, t, hbt, hb1, hb2⟩ := natDecDigits_shape v
  rw [hbt, parseIntGo_default b t (by omega) (by omega), ← hbt,
    parseDecDigits_natDecDigits]
  show (match (if v ≤ 2 ^ 63 - 1 then some ((v : Int)) else none) with
    | some w => Except.ok (SVal.int w)
    | none => _) = _
  rw [if_pos (by omega)]

theorem decodeNumber_natDec_big (v : Nat) (h1 : 2 ^ 63 ≤ v) (h2 : v < 2 ^ 64) :
    decodeNumber (natDecDigits v) = Except.ok (SVal.uint v) := by
  unfold decodeNumber
  obtain ⟨b, t, hbt, hb1, hb2⟩ := natDecDigits_shape v
  rw [hbt, parseIntGo_default b t (by omega) (by omega),
    parseUintGo_default b t (by omega) (by omega), ← hbt,
    parseDecDigits_natDecDigits]
  show (match (if v ≤ 2 ^ 63 - 1 then some ((v : Int)) else none) with
    | some w => Except.ok (SVal.int w)
    | none =>
      match (if v ≤ 2 ^ 64 - 1 then some v else none) with
      | some w => Except.ok (SVal.uint w)
      | none => _) = _
  rw [if_neg (by omega), if_pos (by omega)]

theorem goDecode_number (b : Nat) (t : Bytes) (hb : (48 ≤ b ∧ b ≤ 57) ∨ b = 45) :
    goDecode (some (b :: t)) =
      match decodeNumber (b :: t) with
      | Except.ok v => Except.ok (some v)
      | Except.error e => Except.error e := by
  show (if b = 78 then Except.ok none
    else if b = 105 then
      match parseIntGo t with
      | some v => Except.ok (some (SVal.int v))
      | none => Except.error "invalid int"
    else if b = 117 then
      match parseUintGo t with
      | some v => Except.ok (some (SVal.uint v))
      | none => Except.error "invalid uint"
    else if b = 102 then
      match parseFloatGo t with
      | some q => Except.ok (some (SVal.float q))
      | none => Except.error "invalid float"
    else if b = 98 then
      match decodeBoolGo t with
      | Except.ok x => Except.ok (some (SVal.bool x))
      | Except.error e => Except.error e
    else if b = 120 then Except.ok (some (SVal.text t))
    else if b = 122 then
      match lzwDecode t with
      | Except.ok s => Except.ok (some (SVal.text s))
      | Except.error e => Except.error e
    else if b = 90 then
      match snappyDecode t with
      | Except.ok s => Except.ok (some (SVal.text s))
      | Except.error e => Except.error e
    else if b = 114 then Except.ok (some (SVal.binary t))
    else if b = 116 then
      match parseIntGo t with
      | some v => Except.ok (some (SVal.timestamp v))
      | none => Except.error "invalid timestamp"
    else if b = 115 then
      match bsonDecodeArray t with
      | some elems => Except.ok (some (SVal.set elems))
      | none => Except.error "invalid set"
    else if b = 108 then
      match bsonDecodeArray t with
      | some elems => Except.ok (some (SVal.list elems))
      | none => Except.error "invalid list"
    else if b = 109 then
      match bsonDecodeMap t with
      | some entries => Except.ok (some (SVal.map entries))
      | none => Except.error "invalid map"
    else if (48 ≤ b ∧ b ≤ 57) ∨ b = 45 then
      match decodeNumber (b :: t) with
      | Except.ok v => Except.ok (some v)
      | Except.error e => Except.error e
    else Except.error "Invalid type prefix") =
      match decodeNumber (b :: t) with
      | Except.ok v => Except.ok (some v)
      | Except.error e => Except.error e
  have hno : ∀ c : Nat, 78 ≤ c → ¬b = c := by omega
  rw [if_neg (hno 78 le_rfl), if_neg (hno 105 (by norm_num)),
    if_neg (hno 117 (by norm_num)), if_neg (hno 102 (by norm_num)),
    if_neg (hno 98 (by norm_num)), if_neg (hno 120 (by norm_num)),
    if_neg (hno 122 (by norm_num)), if_neg (hno 90 (by norm_num)),
    if_neg (hno 114 (by norm_num)), if_neg (hno 116 (by norm_num)),
    if_neg (hno 115 (by norm_num)), if_neg (hno 108 (by norm_num)),
    if_neg (hno 109 (by norm_num)), if_pos hb]

theorem encodeDecode_int (th : Nat) (v : Int) (h1 : -(2 ^ 63) ≤ v) (h2 : v < 2 ^ 63) :
    encodeDecode th (some (SVal.int v)) = Except.ok (some (SVal.int v)) := by
  show goDecode (some (intDec v)) = _
  by_cases hv : v < 0
  · have hshape : intDec v = 45 :: natDecDigits v.natAbs := by
      unfold intDec; rw [if_pos hv]; rfl
    rw [hshape, goDecode_number 45 _ (Or.inr rfl), ← hshape,
      decodeNumber_intDec v h1 h2]
  · have hshape : intDec v = natDecDigits v.natAbs := by
      unfold intDec; rw [if_neg hv]; rfl
    obtain ⟨b, t, hbt, hb1, hb2⟩ := natDecDigits_shape v.natAbs
    rw [hshape, hbt, goDecode_number b t (Or.inl ⟨hb1, hb2⟩), ← hbt, ← hshape,
      decodeNumber_intDec v h1 h2]

theorem encodeDecode_uint_big (th : Nat) (v : Nat) (h1 : 2 ^ 63 ≤ v) (h2 : v < 2 ^ 64) :
    encodeDecode th (some (SVal.uint v)) = Except.ok (some (SVal.uint v)) := by
  show goDecode (some (natDecDigits v)) = _
  obtain ⟨b, t, hbt, hb1, hb2⟩ := natDecDigits_shape v
  rw [hbt, goDecode_number b t (Or.inl ⟨hb1, hb2⟩), ← hbt,
    decodeNumber_natDec_big v h1 h2]

theorem encodeDecode_uint_small (th : Nat) (v : Nat) (h : v < 2 ^ 63) :
    encodeDecode th (some (SVal.uint v)) = Except.ok (some (SVal.int (v : Int))) := by
  show goDecode (some (natDecDigits v)) = _
  obtain ⟨b, t, hbt, hb1, hb2⟩ := natDecDigits_shape v
  rw [hbt, goDecode_number b t (Or.inl ⟨hb1, hb2⟩), ← hbt,
    decodeNumber_natDec_small v h]

theorem encodeDecode_float (th : Nat) (q : ℚ) (hden : (q * 1000000).den = 1) :
    encodeDecode th (some (SVal.float q)) = Except.ok (some (SVal.float q)) := by
  show goDecode (some (fmtF6 q)) = _
  by_cases hq : q < 0
  · have hshape : fmtF6 q = 45 ::
        (natDecDigits ((roundHalfEven (|q| * 1000000)).toNat / 1000000) ++
          46 :: (beDigits 10 6 ((roundHalfEven (|q| * 1000000)).toNat % 1000000)).map
            (fun d => d + 48)) := by
      rw [fmtF6_eq, if_pos hq]; rfl
    rw [hshape, goDecode_number 45 _ (Or.inr rfl), ← hshape, decodeNumber_fmtF6 q hden]
  · obtain ⟨b, t, hbt, hb1, hb2⟩ :=
      natDecDigits_shape ((roundHalfEven (|q| * 1000000)).toNat / 1000000)
    have hshape : fmtF6 q = b :: (t ++
        46 :: (beDigits 10 6 ((roundHalfEven (|q| * 1000000)).toNat % 1000000)).map
          (fun d => d + 48)) := by
      rw [fmtF6_eq, if_neg hq, hbt]; rfl
    rw [hshape, goDecode_number b _ (Or.inl ⟨hb1, hb2⟩), ← hshape,
      decodeNumber_fmtF6 q hden]

theorem encodeDecode_text (th : Nat) (s : Bytes) :
    encodeDecode th (some (SVal.text s)) = Except.ok (some (SVal.text s)) := by
  show (match goEncode th (some (SVal.text s)) with
    | Except.error e => Except.error e
    | Except.ok b => goDecode (some b)) = Except.ok (some (SVal.text s))
  by_cases hth : 0 < th ∧ th ≤ s.length
  · have henc : goEncode th (some (SVal.text s)) = Except.ok (90 :: snappyEncode s) := by
      show Except.ok (if 0 < th ∧ th ≤ s.length
        then 90 :: snappyEncode s else 120 :: s) = _
      rw [if_pos hth]
    rw [henc]
    rfl
  · have henc : goEncode th (some (SVal.text s)) = Except.ok (120 :: s) := by
      show Except.ok (if 0 < th ∧ th ≤ s.length
        then 90 :: snappyEncode s else 120 :: s) = _
      rw [if_neg hth]
    rw [henc]
    rfl

theorem encodeDecode_timestamp (th : Nat) (sec : Int) (h1 : -(2 ^ 63) ≤ sec)
    (h2 : sec < 2 ^ 63) (h0 : sec ≠ goZeroTimeUnix) :
    encodeDecode th (some (SVal.timestamp sec)) =
      Except.ok (some (SVal.timestamp sec)) := by
  have henc : goEncode th (some (SVal.timestamp sec)) =
      Except.ok (116 :: intDec sec) := by
    show Except.ok (if sec = goZeroTimeUnix then [] else 116 :: intDec sec) = _
    rw [if_neg h0]
  show (match goEncode th (some (SVal.timestamp sec)) with
    | Except.error e => Except.error e
    | Except.ok b => goDecode (some b)) = Except.ok (some (SVal.timestamp sec))
  rw [henc]
  show (match parseIntGo (intDec sec) with
    | some v => Except.ok (some (SVal.timestamp v))
    | none => Except.error "invalid timestamp") = _
  rw [parseIntGo_intDec sec h1 h2]

theorem encodeDecode_set (th : Nat) (elems : List SVal)
    (h : ∀ v ∈ elems, scalarOK v) :
    encodeDecode th (some (SVal.set elems)) = Except.ok (some (SVal.set elems)) := by
  obtain ⟨blobs, hblobs⟩ := mapM_elemBlob_some elems h
  have hm : bsonMarshalList elems = some (natDecDigits elems.length ++ 58 :: blobs.flatten) := by
    unfold bsonMarshalList
    rw [hblobs]
    rfl
  have henc : goEncode th (some (SVal.set elems)) =
      Except.ok (115 :: (natDecDigits elems.length ++ 58 :: blobs.flatten)) := by
    show (match bsonMarshalList elems with
      | some b => Except.ok (115 :: b)
      | none => Except.error "Could not encode set") = _
    rw [hm]
  show (match goEncode th (some (SVal.set elems)) with
    | Except.error e => Except.error e
    | Except.ok b => goDecode (some b)) = Except.ok (some (SVal.set elems))
  rw [henc]
  show (match bsonDecodeArray (natDecDigits elems.length ++ 58 :: blobs.flatten) with
    | some es => Except.ok (some (SVal.set es))
    | none => Except.error "invalid set") = _
  rw [bsonDecodeArray_marshal elems _ h hm]

theorem encodeDecode_list (th : Nat) (elems : List SVal)
    (h : ∀ v ∈ elems, scalarOK v) :
    encodeDecode th (some (SVal.list elems)) = Except.ok (some (SVal.list elems)) := by
  obtain ⟨blobs, hblobs⟩ := mapM_elemBlob_some elems h
  have hm : bsonMarshalList elems = some (natDecDigits elems.length ++ 58 :: blobs.flatten) := by
    unfold bsonMarshalList
    rw [hblobs]
    rfl
  have henc : goEncode th (some (SVal.list elems)) =
      Except.ok (108 :: (natDecDigits elems.length ++ 58 :: blobs.flatten)) := by
    show (match bsonMarshalList elems with
      | some b => Except.ok (108 :: b)
      | none => Except.error "Could not encode set") = _
    rw [hm]
  show (match goEncode th (some (SVal.list elems)) with
    | Except.error e => Except.error e
    | Except.ok b => goDecode (some b)) = Except.ok (some (SVal.list elems))
  rw [henc]
  show (match bsonDecodeArray (natDecDigits elems.length ++ 58 :: blobs.flatten) with
    | some es => Except.ok (some (SVal.list es))
    | none => Except.error "invalid list") = _
  rw [bsonDecodeArray_marshal elems _ h hm]

theorem encodeDecode_map (th : Nat) (entries : List (Bytes × SVal))
    (h : ∀ e ∈ entries, scalarOK e.2) :
    encodeDecode th (some (SVal.map entries)) = Except.ok (some (SVal.map entries)) := by
  obtain ⟨blobs, hblobs⟩ := mapM_entryBlob_some entries h
  have hm : bsonMarshalMap entries =
      some (natDecDigits entries.length ++ 58 :: blobs.flatten) := by
    unfold bsonMarshalMap
    rw [hblobs]
    rfl
  have henc : goEncode th (some (SVal.map entries)) =
      Except.ok (109 :: (natDecDigits entries.length ++ 58 :: blobs.flatten)) := by
    show (match bsonMarshalMap entries with
      | some b => Except.ok (109 :: b)
      | none => Except.error "Could not encode set") = _
    rw [hm]
  show (match goEncode th (some (SVal.map entries)) with
    | Except.error e => Except.error e
    | Except.ok b => goDecode (some b)) = Except.ok (some (SVal.map entries))
  rw [henc]
  show (match bsonDecodeMap (natDecDigits entries.length ++ 58 :: blobs.flatten) with
    | some es => Except.ok (some (SVal.map es))
    | none => Except.error "invalid map") = _
  rw [bsonDecodeMap_marshal entries _ h hm]

theorem encodeDecode_nil (th : Nat) : encodeDecode th none = Except.ok none := rfl

theorem encodeDecode_bool (th : Nat) (b : Bool) :
    encodeDecode th (some (SVal.bool b)) = Except.ok (some (SVal.bool b)) := by
  cases b <;> rfl

theorem encodeDecode_binary (th : Nat) (s : Bytes) :
    encodeDecode th (some (SVal.binary s)) = Except.ok (some (SVal.binary s)) := rfl

/-- **C1** (corrected): the codec round-trip `decode (encode v) = v`, with the
deviations the code forces. Nil, Bool, Text (both below and at the snappy
compression threshold), Binary, and containers of primitive values
round-trip; `Int` round-trips on int64-range values and `Uint` on values
above int64 range (a smaller `Uint` decodes as the numerically equal `Int`,
because numbers are encoded as bare decimal and the decoder tries signed
first — see the separate counterexample); a `Float` round-trips when its
value is exact in six decimals (`%f` keeps exactly six fraction digits); a
`Timestamp` round-trips at second precision for int64-range seconds other
than the zero time (which encodes as the empty string). -/
theorem C1_codec_roundtrip (th : Nat) :
    encodeDecode th none = Except.ok none ∧
    (∀ v : Int, -(2 ^ 63) ≤ v → v < 2 ^ 63 →
      encodeDecode th (some (SVal.int v)) = Except.ok (some (SVal.int v))) ∧
    (∀ v : Nat, 2 ^ 63 ≤ v → v < 2 ^ 64 →
      encodeDecode th (some (SVal.uint v)) = Except.ok (some (SVal.uint v))) ∧
    (∀ v : Nat, v < 2 ^ 63 →
      encodeDecode th (some (SVal.uint v)) = Except.ok (some (SVal.int (v : Int)))) ∧
    (∀ q : ℚ, (q * 1000000).den = 1 →
      encodeDecode th (some (SVal.float q)) = Except.ok (some (SVal.float q))) ∧
    (∀ b : Bool, encodeDecode th (some (SVal.bool b)) = Except.ok (some (SVal.bool b))) ∧
    (∀ s : Bytes, encodeDecode th (some (SVal.text s)) = Except.ok (some (SVal.text s))) ∧
    (∀ s : Bytes,
      encodeDecode th (some (SVal.binary s)) = Except.ok (some (SVal.binary s))) ∧
    (∀ sec : Int, -(2 ^ 63) ≤ sec → sec < 2 ^ 63 → sec ≠ goZeroTimeUnix →
      encodeDecode th (some (SVal.timestamp sec)) =
        Except.ok (some (SVal.timestamp sec))) ∧
    (∀ elems : List SVal, (∀ v ∈ elems, scalarOK v) →
      encodeDecode th (some (SVal.set elems)) = Except.ok (some (SVal.set elems))) ∧
    (∀ elems : List SVal, (∀ v ∈ elems, scalarOK v) →
      encodeDecode th (some (SVal.list elems)) = Except.ok (some (SVal.list elems))) ∧
    (∀ entries : List (Bytes × SVal), (∀ e ∈ entries, scalarOK e.2) →
      encodeDecode th (some (SVal.map entries)) = Except.ok (some (SVal.map entries))) :=
  ⟨encodeDecode_nil th,
   encodeDecode_int th,
   encodeDecode_uint_big th,
   encodeDecode_uint_small th,
   encodeDecode_float th,
   encodeDecode_bool th,
   encodeDecode_text th,
   encodeDecode_binary th,
   encodeDecode_timestamp th,
   encodeDecode_set th,
   encodeDecode_list th,
   encodeDecode_map th⟩

theorem C1_codec_roundtrip_witness :
    encodeDecode 4 (some (SVal.int (-42))) = Except.ok (some (SVal.int (-42))) ∧
    encodeDecode 4 (some (SVal.uint 9223372036854775808)) =
      Except.ok (some (SVal.uint 9223372036854775808)) ∧
    encodeDecode 4 (some (SVal.uint 42)) = Except.ok (some (SVal.int 42)) ∧
    encodeDecode 4 (some (SVal.float 0)) = Except.ok (some (SVal.float 0)) ∧
    encodeDecode 4 (some (SVal.text [104, 101, 108, 108, 111])) =
      Except.ok (some (SVal.text [104, 101, 108, 108, 111])) ∧
    encodeDecode 4 (some (SVal.timestamp 1700000000)) =
      Except.ok (some (SVal.timestamp 1700000000)) ∧
    encodeDecode 4 (some (SVal.set [SVal.bool true, SVal.text [104, 105]])) =
      Except.ok (some (SVal.set [SVal.bool true, SVal.text [104, 105]])) := by
  obtain ⟨h0, h1, h2, h3, h4, h5, h6, h7, h8, h9, h10, h11⟩ := C1_codec_roundtrip 4
  refine ⟨h1 (-42) (by norm_num) (by norm_num),
    h2 9223372036854775808 (by norm_num) (by norm_num),
    h3 42 (by norm_num),
    h4 0 (by norm_num),
    h6 [104, 101, 108, 108, 111],
    h8 1700000000 (by norm_num) (by norm_num) (by decide),
    h9 [SVal.bool true, SVal.text [104, 105]] ?_⟩
  intro v hv
  simp only [List.mem_cons] at hv
  rcases hv with rfl | rfl | h
  · trivial
  · trivial
  · simp at h

/-- **C1 counterexample**: a `Uint` value of 42 — representable in int64 —
encodes as the bare decimal `42` and decodes as the signed `Int` 42, not as a
`Uint`, refuting the unconditional round-trip claim. -/
theorem C1_uint_counterexample :
    encodeDecode 0 (some (SVal.uint 42)) = Except.ok (some (SVal.int 42)) ∧
    Except.ok (some (SVal.int 42)) ≠
      (Except.ok (some (SVal.uint 42)) : Except String (Option SVal)) := by
  constructor
  · rfl
  · simp

/-- **C8** (corrected): `Integer`, `Unsigned` and `Float` values are encoded
with NO type-tag byte. An `Int` encodes to a string whose first byte is a
decimal digit or `-` (never the tag `i` = 105); a `Uint` starts with a
decimal digit (never `u` = 117); a `Float` starts with a digit or `-` (never
`f` = 102). The claim's fixed-decimal-point clause is real: the float body
always contains `.` (46), so neither `ParseInt` nor `ParseUint` accepts it
and a decoded float is never confused for an int. -/
theorem C8_numeric_type_tags (th : Nat) :
    (∀ v : Int, ∃ b t, goEncode th (some (SVal.int v)) = Except.ok (b :: t) ∧
      ((48 ≤ b ∧ b ≤ 57) ∨ b = 45)) ∧
    (∀ v : Nat, ∃ b t, goEncode th (some (SVal.uint v)) = Except.ok (b :: t) ∧
      48 ≤ b ∧ b ≤ 57) ∧
    (∀ q : ℚ, (∃ b t, goEncode th (some (SVal.float q)) = Except.ok (b :: t) ∧
      ((48 ≤ b ∧ b ≤ 57) ∨ b = 45)) ∧
      (46 : Nat) ∈ fmtF6 q ∧
      parseIntGo (fmtF6 q) = none ∧ parseUintGo (fmtF6 q) = none) := by
  refine ⟨?_, ?_, ?_⟩
  · intro v
    by_cases hv : v < 0
    · refine ⟨45, natDecDigits v.natAbs, ?_, Or.inr rfl⟩
      show Except.ok (intDec v) = _
      unfold intDec
      rw [if_pos hv]
      rfl
    · obtain ⟨b, t, hbt, hb1, hb2⟩ := natDecDigits_shape v.natAbs
      refine ⟨b, t, ?_, Or.inl ⟨hb1, hb2⟩⟩
      show Except.ok (intDec v) = _
      unfold intDec
      rw [if_neg hv]
      simpa using hbt
  · intro v
    obtain ⟨b, t, hbt, hb1, hb2⟩ := natDecDigits_shape v
    exact ⟨b, t, by rw [show goEncode th (some (SVal.uint v)) =
      Except.ok (natDecDigits v) from rfl, hbt], hb1, hb2⟩
  · intro q
    refine ⟨?_, mem46_fmtF6 q, parseIntGo_fmtF6 q, parseUintGo_fmtF6 q⟩
    by_cases hq : q < 0
    · refine ⟨45, natDecDigits ((roundHalfEven (|q| * 1000000)).toNat / 1000000) ++
        46 :: (beDigits 10 6 ((roundHalfEven (|q| * 1000000)).toNat % 1000000)).map
          (fun d => d + 48), ?_, Or.inr rfl⟩
      show Except.ok (fmtF6 q) = _
      rw [fmtF6_eq, if_pos hq]
      rfl
    · obtain ⟨b, t, hbt, hb1, hb2⟩ :=
        natDecDigits_shape ((roundHalfEven (|q| * 1000000)).toNat / 1000000)
      refine ⟨b, t ++ 46 :: (beDigits 10 6
        ((roundHalfEven (|q| * 1000000)).toNat % 1000000)).map (fun d => d + 48),
        ?_, Or.inl ⟨hb1, hb2⟩⟩
      show Except.ok (fmtF6 q) = _
      rw [fmtF6_eq, if_neg hq, hbt]
      rfl

/-- **C8 counterexample**: `Encode` of the `Int` value 5 yields the single
byte `"5"` (53), whose first byte is not the claimed type tag `i` (105). -/
theorem C8_int_tag_counterexample :
    goEncode 0 (some (SVal.int 5)) = Except.ok [53] ∧ (53 : Nat) ≠ 105 := by
  exact ⟨rfl, by decide⟩

end Meduza
